import Mathlib

/-
Verification of the effect-composition core of the hono-effect-api
repository: the Outcome/error taxonomy (src/errors.ts), the in-memory
UserService (src/services/UserService.ts), the database-backed
UserService and PostService (src/services/TodoService.ts second unit and
src/services/PostService.ts), and the scoped DatabaseService layer
(src/services/DatabaseService.ts).

Conventions of the shallow embedding:
- JavaScript Date values are modelled as Nat timestamps passed in
  explicitly as a parameter named now.
- Effect.gen sequencing over the typed error channel is modelled by the
  state-and-error monad Eff below: a step either succeeds with a value
  or fails with an AppError, and in both cases returns the (possibly
  mutated) state.  A thrown JavaScript exception that escapes the typed
  channel is modelled by the AppError.defect constructor.
- JavaScript Map iteration order is insertion order, and Map.set on an
  existing key updates in place; the users map is therefore an
  association list in insertion order with in-place update.
- String.trim and the 280-character length check follow Lean string
  semantics; the witnesses only use ASCII inputs, on which these agree
  with the JavaScript semantics.
-/

namespace HonoEffectApi

/-- Error taxonomy of src/errors.ts (UserNotFoundError,
UserAlreadyExistsError, PostNotFoundError, ValidationError,
DatabaseError), together with TodoNotFoundError — imported by
src/services/TodoService.ts from ../errors with payload { id }; its
declaration is not in the provided errors.ts, so it is modelled from
that import and its use sites — and a defect constructor that models a
thrown JavaScript exception escaping the typed error channel of
Effect. -/
inductive AppError where
  | userNotFound (id : String)
  | userAlreadyExists (username : String)
  | postNotFound (id : String)
  | todoNotFound (id : String)
  | validation (message : String)
  | databaseError (message : String)
  | defect (message : String)
deriving DecidableEq, Repr

/-- State-and-error monad embedding Effect.gen sequencing: a computation
takes the current state and returns either a success value or a typed
failure, together with the state as mutated so far (a failure does not
roll mutations back). -/
def Eff (σ : Type) (α : Type) : Type := σ → Except AppError α × σ

/-- Lift a pure value (return inside Effect.gen). -/
def Eff.pureE {σ α : Type} (a : α) : Eff σ α := fun s => (Except.ok a, s)

/-- Embed Effect.fail. -/
def Eff.failE {σ α : Type} (e : AppError) : Eff σ α := fun s => (Except.error e, s)

/-- Sequencing of Effect.gen: run the first step; on success continue,
on failure short-circuit without running the continuation. -/
def Eff.bindE {σ α β : Type} (x : Eff σ α) (f : α → Eff σ β) : Eff σ β := fun s =>
  match x s with
  | (Except.ok a, s1) => f a s1
  | (Except.error e, s1) => (Except.error e, s1)

/-- Map over the success value of a step. -/
def Eff.mapE {σ α β : Type} (f : α → β) (x : Eff σ α) : Eff σ β := fun s =>
  match x s with
  | (Except.ok a, s1) => (Except.ok (f a), s1)
  | (Except.error e, s1) => (Except.error e, s1)

/-- Discard the success value of a step. -/
def Eff.unitE {σ α : Type} (x : Eff σ α) : Eff σ PUnit :=
  Eff.mapE (fun _ => PUnit.unit) x

/-- Run a list of steps in order, short-circuiting on the first failure
(the sequencing of a Program composed of service-call steps). -/
def seqSteps {σ : Type} : List (Eff σ PUnit) → Eff σ PUnit
  | [] => Eff.pureE PUnit.unit
  | st :: rest => Eff.bindE st (fun _ => seqSteps rest)

/-- JavaScript String.prototype.trim: drop leading and trailing
whitespace. -/
def jsTrim (s : String) : String :=
  String.mk
    (((s.data.dropWhile (fun c => c.isWhitespace)).reverse.dropWhile
        (fun c => c.isWhitespace)).reverse)

/-- Truthiness-plus-trim check used throughout the services: a string
fails the check exactly when (!s || s.trim().length === 0). -/
def isBlank (s : String) : Bool := (jsTrim s).length == 0

/-- User record of src/types.ts. -/
structure User where
  id : String
  username : String
  email : String
  displayName : String
  bio : Option String
  createdAt : Nat
  updatedAt : Nat
deriving DecidableEq, Repr

/-- CreateUserInput of src/types.ts. -/
structure CreateUserInput where
  username : String
  email : String
  displayName : String
  bio : Option String
deriving DecidableEq, Repr

/-- UpdateUserInput of src/types.ts (all fields optional). -/
structure UpdateUserInput where
  email : Option String
  displayName : Option String
  bio : Option String
deriving DecidableEq, Repr

/-- Map.set: update the value at a key in place if present (JavaScript
Map keeps the original insertion position), otherwise append. -/
def setEntry {α : Type} (k : String) (v : α) : List (String × α) → List (String × α)
  | [] => [(k, v)]
  | (k0, v0) :: rest =>
      if k0 = k then (k, v) :: rest else (k0, v0) :: setEntry k v rest

/-- Map.get: value stored at a key. -/
def lookupEntry {α : Type} (k : String) (l : List (String × α)) : Option α :=
  (l.find? (fun p => p.1 == k)).map (fun p => p.2)

/-- Map.delete: remove the entry stored at a key. -/
def eraseEntry {α : Type} (k : String) : List (String × α) → List (String × α)
  | [] => []
  | (k0, v0) :: rest =>
      if k0 = k then rest else (k0, v0) :: eraseEntry k rest

/-- Private state of the in-memory UserServiceLive class
(src/services/UserService.ts lines 30-32): the users map and the id
counter. -/
structure UserStore where
  users : List (String × User)
  idCounter : Nat
deriving DecidableEq, Repr

/-- UserServiceLive.getAll (src/services/UserService.ts line 34). -/
def userGetAll : Eff UserStore (List User) := fun s =>
  (Except.ok (s.users.map Prod.snd), s)

/-- UserServiceLive.getById (src/services/UserService.ts lines 36-43). -/
def userGetById (id : String) : Eff UserStore User := fun s =>
  match lookupEntry id s.users with
  | some u => (Except.ok u, s)
  | none => (Except.error (AppError.userNotFound id), s)

/-- UserServiceLive.getByUsername (src/services/UserService.ts lines
45-56). -/
def userGetByUsername (username : String) : Eff UserStore User := fun s =>
  match (s.users.map Prod.snd).find? (fun u => u.username == username) with
  | some u => (Except.ok u, s)
  | none => (Except.error (AppError.userNotFound ("username:" ++ username)), s)

/-- UserServiceLive.create (src/services/UserService.ts lines 58-104):
validate the three required fields, reject a duplicate username, then
allocate the next id and insert. -/
def userCreate (input : CreateUserInput) (now : Nat) : Eff UserStore User := fun s =>
  if isBlank input.username then
    (Except.error (AppError.validation "Username is required"), s)
  else if isBlank input.email then
    (Except.error (AppError.validation "Email is required"), s)
  else if isBlank input.displayName then
    (Except.error (AppError.validation "Display name is required"), s)
  else
    match (s.users.map Prod.snd).find? (fun u => u.username == input.username) with
    | some _ => (Except.error (AppError.userAlreadyExists input.username), s)
    | none =>
        let id := toString s.idCounter
        let user : User :=
          { id := id, username := input.username, email := input.email,
            displayName := input.displayName, bio := input.bio,
            createdAt := now, updatedAt := now }
        (Except.ok user,
         { users := setEntry id user s.users, idCounter := s.idCounter + 1 })

/-- UserServiceLive.update (src/services/UserService.ts lines 106-136):
look the user up, validate the provided fields, then overwrite the
changed fields in place. -/
def userUpdate (id : String) (input : UpdateUserInput) (now : Nat) : Eff UserStore User :=
  Eff.bindE (userGetById id) (fun user => fun s =>
    if input.email.any isBlank then
      (Except.error (AppError.validation "Email cannot be empty"), s)
    else if input.displayName.any isBlank then
      (Except.error (AppError.validation "Display name cannot be empty"), s)
    else
      let updatedUser : User :=
        { user with
          email := input.email.getD user.email,
          displayName := input.displayName.getD user.displayName,
          bio := match input.bio with | some b => some b | none => user.bio,
          updatedAt := now }
      (Except.ok updatedUser, { s with users := setEntry id updatedUser s.users }))

/-- UserServiceLive.delete (src/services/UserService.ts lines 138-142). -/
def userDelete (id : String) : Eff UserStore PUnit :=
  Eff.bindE (userGetById id) (fun _ => fun s =>
    (Except.ok PUnit.unit, { s with users := eraseEntry id s.users }))

/-- Result value of any in-memory UserService operation. -/
inductive UserVal where
  | many (l : List User)
  | one (u : User)
  | unit
deriving DecidableEq, Repr

/-- One in-memory UserService call, as issued by a Program. -/
inductive UserOp where
  | getAll
  | getById (id : String)
  | getByUsername (username : String)
  | create (input : CreateUserInput) (now : Nat)
  | update (id : String) (input : UpdateUserInput) (now : Nat)
  | delete (id : String)
deriving DecidableEq, Repr

/-- Dispatch a UserService call to its implementation. -/
def runUserOp : UserOp → Eff UserStore UserVal
  | UserOp.getAll => Eff.mapE UserVal.many userGetAll
  | UserOp.getById id => Eff.mapE UserVal.one (userGetById id)
  | UserOp.getByUsername u => Eff.mapE UserVal.one (userGetByUsername u)
  | UserOp.create input now => Eff.mapE UserVal.one (userCreate input now)
  | UserOp.update id input now => Eff.mapE UserVal.one (userUpdate id input now)
  | UserOp.delete id => Eff.mapE (fun _ => UserVal.unit) (userDelete id)

/-- Post record of src/types.ts. -/
structure Post where
  id : String
  userId : String
  content : String
  createdAt : Nat
  updatedAt : Nat
deriving DecidableEq, Repr

/-- CreatePostInput of src/types.ts. -/
structure CreatePostInput where
  userId : String
  content : String
deriving DecidableEq, Repr

/-- UpdatePostInput of src/types.ts. -/
structure UpdatePostInput where
  content : Option String
deriving DecidableEq, Repr

/-- Numeric value of a list of decimal digit characters. -/
def digitsVal (cs : List Char) : Nat :=
  cs.foldl (fun n c => n * 10 + (c.toNat - 48)) 0

/-- Longest leading run of decimal digits, as a number; none when the
run is empty. -/
def leadingNat (cs : List Char) : Option Nat :=
  let ds := cs.takeWhile (fun c => c.isDigit)
  if ds.isEmpty then none else some (digitsVal ds)

/-- JavaScript parseInt(s, 10): skip leading whitespace, read an
optional sign and then the longest run of decimal digits, ignoring any
trailing characters; NaN (none) when no digit is read. -/
def jsParseInt (s : String) : Option Int :=
  let cs := s.data.dropWhile (fun c => c.isWhitespace)
  match cs with
  | '-' :: rest => (leadingNat rest).map (fun n => -(n : Int))
  | '+' :: rest => (leadingNat rest).map (fun n => (n : Int))
  | _ => (leadingNat cs).map (fun n => (n : Int))

/-- Row of the users table (src/db/schema.ts). -/
structure DbUserRow where
  id : Int
  username : String
  email : String
  displayName : String
  bio : Option String
  createdAt : Nat
  updatedAt : Nat
deriving DecidableEq, Repr

/-- Row of the posts table (src/db/schema.ts). -/
structure DbPostRow where
  id : Int
  userId : Int
  content : String
  createdAt : Nat
  updatedAt : Nat
deriving DecidableEq, Repr

/-- Contents of the backing postgres database: the two tables and the
next serial id for each. -/
structure DbState where
  users : List DbUserRow
  posts : List DbPostRow
  nextUserId : Int
  nextPostId : Int
deriving DecidableEq, Repr

/-- One operation issued against the backing store, recorded so that
claims about the store not being touched are about the issued
operations, not only the resulting table contents. -/
inductive DbOp where
  | selectAllUsers
  | selectUserById (id : Int)
  | selectUserByUsername (username : String)
  | insertUser (username email displayName : String) (bio : Option String)
  | updateUser (id : Int) (email displayName bio : Option String)
  | deleteUser (id : Int)
  | selectAllPosts
  | selectPostById (id : Int)
  | selectPostsByUser (userId : Int)
  | insertPost (userId : Int) (content : String)
  | updatePost (id : Int) (content : Option String)
  | deletePost (id : Int)
deriving DecidableEq, Repr

/-- State threaded through the database-backed services: the database,
a script of backend outcomes (each issued operation consumes one entry;
some msg means the underlying promise rejects and msg is the
stringified rejection, none means the query executes), and the trace of
operations issued so far. -/
structure Backend where
  db : DbState
  failures : List (Option String)
  trace : List DbOp
deriving DecidableEq, Repr

/-- Effect.tryPromise around one database operation: on a scripted
rejection the catch handler wraps the stringified backend error in a
DatabaseError; otherwise the query q runs against the database.  An
exhausted script means the backend keeps succeeding. -/
def dbCall {ρ : Type} (op : DbOp) (q : DbState → DbState × ρ) : Eff Backend ρ := fun s =>
  match s.failures with
  | some msg :: rest =>
      (Except.error (AppError.databaseError msg),
       { s with failures := rest, trace := s.trace ++ [op] })
  | none :: rest =>
      let r := q s.db
      (Except.ok r.2, { db := r.1, failures := rest, trace := s.trace ++ [op] })
  | [] =>
      let r := q s.db
      (Except.ok r.2, { s with db := r.1, trace := s.trace ++ [op] })

/-- db.select().from(users).where(eq(users.id, n)).limit(1), taking
result[0]. -/
def qSelectUserById (n : Int) (db : DbState) : DbState × Option DbUserRow :=
  (db, db.users.find? (fun r => r.id == n))

/-- db.select().from(users).where(eq(users.username, u)).limit(1),
taking result[0]. -/
def qSelectUserByUsername (u : String) (db : DbState) : DbState × Option DbUserRow :=
  (db, db.users.find? (fun r => r.username == u))

/-- db.insert(users).values({...}).returning(), taking result[0]; the
serial id column allocates the next id and the timestamp columns
default to now. -/
def qInsertUser (input : CreateUserInput) (now : Nat) (db : DbState) : DbState × DbUserRow :=
  let row : DbUserRow :=
    { id := db.nextUserId, username := input.username, email := input.email,
      displayName := input.displayName, bio := input.bio,
      createdAt := now, updatedAt := now }
  ({ db with users := db.users ++ [row], nextUserId := db.nextUserId + 1 }, row)

/-- db.select().from(posts).where(eq(posts.id, n)).limit(1), taking
result[0]. -/
def qSelectPostById (n : Int) (db : DbState) : DbState × Option DbPostRow :=
  (db, db.posts.find? (fun r => r.id == n))

/-- db.insert(posts).values({userId, content}).returning(), taking
result[0]. -/
def qInsertPost (userId : Int) (content : String) (now : Nat) (db : DbState) :
    DbState × DbPostRow :=
  let row : DbPostRow :=
    { id := db.nextPostId, userId := userId, content := content,
      createdAt := now, updatedAt := now }
  ({ db with posts := db.posts ++ [row], nextPostId := db.nextPostId + 1 }, row)

/-- db.update(posts).set({content, updatedAt}).where(eq(posts.id,
numId)).returning(): drizzle ignores an undefined content column, so an
absent content leaves the column unchanged; returning yields the
updated rows. -/
def qUpdatePost (numId : Int) (content : Option String) (now : Nat) (db : DbState) :
    DbState × List DbPostRow :=
  let upd := fun (r : DbPostRow) =>
    if r.id == numId then { r with content := content.getD r.content, updatedAt := now } else r
  let posts2 := db.posts.map upd
  ({ db with posts := posts2 }, posts2.filter (fun r => r.id == numId))

/-- Map a users-table row to the API User shape (ids stringified), as
done at every return site of the database-backed UserServiceLive. -/
def userOfRow (r : DbUserRow) : User :=
  { id := toString r.id, username := r.username, email := r.email,
    displayName := r.displayName, bio := r.bio,
    createdAt := r.createdAt, updatedAt := r.updatedAt }

/-- Map a posts-table row to the API Post shape (ids stringified), as
done at every return site of PostServiceLive. -/
def postOfRow (r : DbPostRow) : Post :=
  { id := toString r.id, userId := toString r.userId, content := r.content,
    createdAt := r.createdAt, updatedAt := r.updatedAt }

/-- Database-backed UserServiceLive.getById (src/services/TodoService.ts
second unit, lines 163-191): NaN id fails with UserNotFoundError before
any query; otherwise select by id and fail with UserNotFoundError when
no row comes back. -/
def userGetByIdDb (id : String) : Eff Backend User := fun s =>
  match jsParseInt id with
  | none => (Except.error (AppError.userNotFound id), s)
  | some n =>
      (Eff.bindE (dbCall (DbOp.selectUserById n) (qSelectUserById n)) (fun row =>
        match row with
        | some r => Eff.pureE (userOfRow r)
        | none => Eff.failE (AppError.userNotFound id))) s

/-- Database-backed UserServiceLive.create (src/services/TodoService.ts
second unit, lines 221-287): validate the three required fields before
any query, then select by username, fail with UserAlreadyExistsError
when a row exists, and otherwise insert and return the new row. -/
def userCreateDb (input : CreateUserInput) (now : Nat) : Eff Backend User := fun s =>
  if isBlank input.username then
    (Except.error (AppError.validation "Username is required"), s)
  else if isBlank input.email then
    (Except.error (AppError.validation "Email is required"), s)
  else if isBlank input.displayName then
    (Except.error (AppError.validation "Display name is required"), s)
  else
    (Eff.bindE
      (dbCall (DbOp.selectUserByUsername input.username)
        (qSelectUserByUsername input.username))
      (fun existing =>
        match existing with
        | some _ => Eff.failE (AppError.userAlreadyExists input.username)
        | none =>
            Eff.bindE
              (dbCall (DbOp.insertUser input.username input.email input.displayName input.bio)
                (qInsertUser input now))
              (fun row => Eff.pureE (userOfRow row)))) s

/-- PostServiceLive.getById (src/services/PostService.ts lines 60-86). -/
def postGetById (id : String) : Eff Backend Post := fun s =>
  match jsParseInt id with
  | none => (Except.error (AppError.postNotFound id), s)
  | some n =>
      (Eff.bindE (dbCall (DbOp.selectPostById n) (qSelectPostById n)) (fun row =>
        match row with
        | some r => Eff.pureE (postOfRow r)
        | none => Eff.failE (AppError.postNotFound id))) s

/-- PostServiceLive.create (src/services/PostService.ts lines 116-164):
validate the content (required, at most 280 characters) before any
query, verify the author exists through UserService.getById, then
insert.  The source parses input.userId again after getById without a
NaN check; that parse cannot fail once getById has succeeded, so the
impossible branch is a defect. -/
def postCreate (input : CreatePostInput) (now : Nat) : Eff Backend Post := fun s =>
  if isBlank input.content then
    (Except.error (AppError.validation "Post content is required"), s)
  else if 280 < input.content.length then
    (Except.error (AppError.validation "Post content must be 280 characters or less"), s)
  else
    (Eff.bindE (userGetByIdDb input.userId) (fun _ =>
      match jsParseInt input.userId with
      | some numUserId =>
          Eff.bindE
            (dbCall (DbOp.insertPost numUserId input.content)
              (qInsertPost numUserId input.content now))
            (fun row => Eff.pureE (postOfRow row))
      | none => Eff.failE (AppError.defect "unreachable: NaN userId after getById"))) s

/-- Tail of PostServiceLive.update after the input checks: check the
post exists via getById, issue the update, and read result[0]; the
source dereferences result[0] without a check, so an empty returning
list is a defect (a thrown TypeError). -/
def postUpdateRest (id : String) (numId : Int) (input : UpdatePostInput) (now : Nat) :
    Eff Backend Post :=
  Eff.bindE (postGetById id) (fun _ =>
    Eff.bindE (dbCall (DbOp.updatePost numId input.content) (qUpdatePost numId input.content now))
      (fun rows =>
        match rows.head? with
        | some r => Eff.pureE (postOfRow r)
        | none => Eff.failE (AppError.defect "TypeError: result[0] is undefined")))

/-- PostServiceLive.update (src/services/PostService.ts lines 166-219):
NaN id fails with PostNotFoundError, a provided content is validated
(non-blank, at most 280 characters), then the rest of the update
runs. -/
def postUpdate (id : String) (input : UpdatePostInput) (now : Nat) : Eff Backend Post := fun s =>
  match jsParseInt id with
  | none => (Except.error (AppError.postNotFound id), s)
  | some numId =>
      (match input.content with
       | some c =>
           if isBlank c then Eff.failE (AppError.validation "Post content cannot be empty")
           else if 280 < c.length then
             Eff.failE (AppError.validation "Post content must be 280 characters or less")
           else postUpdateRest id numId input now
       | none => postUpdateRest id numId input now) s

/-- Underlying pooled postgres connection owned by the client that
createPostgresClient returns: whether it is open, and how many times it
has actually been torn down. -/
structure Conn where
  isOpen : Bool
  endCount : Nat
deriving DecidableEq, Repr

/-- Resource-side state: the connection plus the console log. -/
structure DbResource where
  conn : Conn
  log : List String
deriving DecidableEq, Repr

/-- Modelled from the spec: client.end() of the postgres library is not
part of this repository; spec section 4.2 states release is "idempotent,
safe to call multiple times, only the first call has effect", so ending
an already-closed connection is a no-op and only the first call tears
the connection down. -/
def clientEnd (c : Conn) : Conn :=
  if c.isOpen then { isOpen := false, endCount := c.endCount + 1 } else c

/-- Finalizer registered by DatabaseServiceLive
(src/services/DatabaseService.ts lines 23-28): log and close the pooled
connection. -/
def releaseFin (s : DbResource) : DbResource :=
  { conn := clientEnd s.conn, log := s.log ++ ["Closing database connection..."] }

/-- How the owning scope is exited: normal completion, early exit with a
typed Failure, or abnormal termination with a defect. -/
inductive ExitKind where
  | success
  | failure (e : AppError)
  | defect (message : String)
deriving DecidableEq, Repr

/-- Acquisition step of DatabaseServiceLive
(src/services/DatabaseService.ts lines 13-35): create the postgres
client (a fresh open connection), register releaseFin with the scope,
and log; returns the resource state and the scope's finalizer list. -/
def dbAcquire : DbResource × List (DbResource → DbResource) :=
  ({ conn := { isOpen := true, endCount := 0 },
     log := ["Database connection established"] },
   [releaseFin])

/-- Modelled from the spec: the Scope mechanics of the effect library
(Layer.scoped, Effect.addFinalizer, Effect.scoped in src/index.ts) are
not part of this repository; spec section 4.2 states that release runs
on every exit path from the owning scope, exactly once.  The runtime
scope therefore acquires the resource, exits with an arbitrary
ExitKind, and then runs every registered finalizer exactly once. -/
def runScopedDb (exit : ExitKind) : ExitKind × DbResource :=
  let acq := dbAcquire
  (exit, acq.2.foldl (fun st f => f st) acq.1)

/-- Insert a row into a list already ordered by createdAt descending,
after any row with an equal or larger createdAt. -/
def insertPostDesc (r : DbPostRow) : List DbPostRow → List DbPostRow
  | [] => [r]
  | x :: xs =>
      if r.createdAt ≤ x.createdAt then x :: insertPostDesc r xs else r :: x :: xs

/-- ORDER BY created_at DESC over the posts rows. -/
def sortPostsByCreatedAtDesc : List DbPostRow → List DbPostRow
  | [] => []
  | x :: xs => insertPostDesc x (sortPostsByCreatedAtDesc xs)

/-- db.select().from(posts).orderBy(desc(posts.createdAt)). -/
def qSelectAllPosts (db : DbState) : DbState × List DbPostRow :=
  (db, sortPostsByCreatedAtDesc db.posts)

/-- db.select().from(posts).where(eq(posts.userId,
numUserId)).orderBy(desc(posts.createdAt)). -/
def qSelectPostsByUser (n : Int) (db : DbState) : DbState × List DbPostRow :=
  (db, sortPostsByCreatedAtDesc (db.posts.filter (fun r => r.userId == n)))

/-- db.delete(posts).where(eq(posts.id, numId)); no returning clause. -/
def qDeletePost (n : Int) (db : DbState) : DbState × PUnit :=
  ({ db with posts := db.posts.filter (fun r => !(r.id == n)) }, PUnit.unit)

/-- db.select().from(users). -/
def qSelectAllUsers (db : DbState) : DbState × List DbUserRow :=
  (db, db.users)

/-- db.update(users).set({email, displayName, bio, updatedAt})
.where(eq(users.id, numId)).returning(): drizzle ignores the undefined
columns, so an absent input field leaves that column unchanged;
returning yields the updated rows. -/
def qUpdateUser (numId : Int) (input : UpdateUserInput) (now : Nat) (db : DbState) :
    DbState × List DbUserRow :=
  let upd := fun (r : DbUserRow) =>
    if r.id == numId then
      { r with email := input.email.getD r.email,
               displayName := input.displayName.getD r.displayName,
               bio := match input.bio with | some b => some b | none => r.bio,
               updatedAt := now }
    else r
  let users2 := db.users.map upd
  ({ db with users := users2 }, users2.filter (fun r => r.id == numId))

/-- db.delete(users).where(eq(users.id, numId)); no returning clause. -/
def qDeleteUser (n : Int) (db : DbState) : DbState × PUnit :=
  ({ db with users := db.users.filter (fun r => !(r.id == n)) }, PUnit.unit)

/-- PostServiceLive.getAll (src/services/PostService.ts lines 43-58):
select every post ordered by createdAt descending and map the rows. -/
def postGetAll : Eff Backend (List Post) :=
  Eff.bindE (dbCall DbOp.selectAllPosts qSelectAllPosts)
    (fun rows => Eff.pureE (rows.map postOfRow))

/-- PostServiceLive.getByUserId (src/services/PostService.ts lines
88-114): a NaN userId returns the empty list without touching the
database; otherwise select that user's posts and map the rows. -/
def postGetByUserId (userId : String) : Eff Backend (List Post) := fun s =>
  match jsParseInt userId with
  | none => (Except.ok [], s)
  | some n =>
      (Eff.bindE (dbCall (DbOp.selectPostsByUser n) (qSelectPostsByUser n))
        (fun rows => Eff.pureE (rows.map postOfRow))) s

/-- PostServiceLive.delete (src/services/PostService.ts lines 221-239):
NaN id fails with PostNotFoundError, the post's existence is checked
via getById, then the row is deleted. -/
def postDelete (id : String) : Eff Backend PUnit := fun s =>
  match jsParseInt id with
  | none => (Except.error (AppError.postNotFound id), s)
  | some n =>
      (Eff.bindE (postGetById id)
        (fun _ => dbCall (DbOp.deletePost n) (qDeletePost n))) s

/-- Database-backed UserServiceLive.getAll (src/services/TodoService.ts
second unit, lines 144-161). -/
def userGetAllDb : Eff Backend (List User) :=
  Eff.bindE (dbCall DbOp.selectAllUsers qSelectAllUsers)
    (fun rows => Eff.pureE (rows.map userOfRow))

/-- Database-backed UserServiceLive.getByUsername
(src/services/TodoService.ts second unit, lines 193-219): select by
username and fail with UserNotFoundError("username:" ++ username) when
no row comes back. -/
def userGetByUsernameDb (username : String) : Eff Backend User :=
  Eff.bindE (dbCall (DbOp.selectUserByUsername username) (qSelectUserByUsername username))
    (fun row =>
      match row with
      | some r => Eff.pureE (userOfRow r)
      | none => Eff.failE (AppError.userNotFound ("username:" ++ username)))

/-- Database-backed UserServiceLive.update (src/services/TodoService.ts
second unit, lines 289-345): NaN id fails with UserNotFoundError,
provided-but-blank email or displayName fails validation, the user's
existence is checked via getById, then the update runs; the source
dereferences result[0] without a check, so an empty returning list is a
defect (a thrown TypeError). -/
def userUpdateDb (id : String) (input : UpdateUserInput) (now : Nat) : Eff Backend User :=
  fun s =>
  match jsParseInt id with
  | none => (Except.error (AppError.userNotFound id), s)
  | some numId =>
      (if Option.any isBlank input.email then
        Eff.failE (AppError.validation "Email cannot be empty")
      else if Option.any isBlank input.displayName then
        Eff.failE (AppError.validation "Display name cannot be empty")
      else
        Eff.bindE (userGetByIdDb id) (fun _ =>
          Eff.bindE
            (dbCall (DbOp.updateUser numId input.email input.displayName input.bio)
              (qUpdateUser numId input now))
            (fun rows =>
              match rows.head? with
              | some r => Eff.pureE (userOfRow r)
              | none => Eff.failE (AppError.defect "TypeError: result[0] is undefined")))) s

/-- Database-backed UserServiceLive.delete (src/services/TodoService.ts
second unit, lines 347-365): NaN id fails with UserNotFoundError, the
user's existence is checked via getById, then the row is deleted. -/
def userDeleteDb (id : String) : Eff Backend PUnit := fun s =>
  match jsParseInt id with
  | none => (Except.error (AppError.userNotFound id), s)
  | some n =>
      (Eff.bindE (userGetByIdDb id)
        (fun _ => dbCall (DbOp.deleteUser n) (qDeleteUser n))) s

/-- Todo record of src/types.ts. -/
structure Todo where
  id : String
  title : String
  description : Option String
  completed : Bool
  createdAt : Nat
  updatedAt : Nat
deriving DecidableEq, Repr

/-- CreateTodoInput of src/types.ts. -/
structure CreateTodoInput where
  title : String
  description : Option String
deriving DecidableEq, Repr

/-- UpdateTodoInput of src/types.ts (all fields optional). -/
structure UpdateTodoInput where
  title : Option String
  description : Option String
  completed : Option Bool
deriving DecidableEq, Repr

/-- Private state of the in-memory TodoServiceLive class
(src/services/TodoService.ts first unit, lines 23-25). -/
structure TodoStore where
  todos : List (String × Todo)
  idCounter : Nat
deriving DecidableEq, Repr

/-- TodoServiceLive.getAll (src/services/TodoService.ts first unit,
line 27). -/
def todoGetAll : Eff TodoStore (List Todo) := fun s =>
  (Except.ok (s.todos.map Prod.snd), s)

/-- TodoServiceLive.getById (src/services/TodoService.ts first unit,
lines 29-36). -/
def todoGetById (id : String) : Eff TodoStore Todo := fun s =>
  match lookupEntry id s.todos with
  | some t => (Except.ok t, s)
  | none => (Except.error (AppError.todoNotFound id), s)

/-- TodoServiceLive.create (src/services/TodoService.ts first unit,
lines 38-60): validate the title, then allocate the next id and
insert. -/
def todoCreate (input : CreateTodoInput) (now : Nat) : Eff TodoStore Todo := fun s =>
  if isBlank input.title then
    (Except.error (AppError.validation "Title is required"), s)
  else
    let id := toString s.idCounter
    let todo : Todo :=
      { id := id, title := input.title, description := input.description,
        completed := false, createdAt := now, updatedAt := now }
    (Except.ok todo,
     { todos := setEntry id todo s.todos, idCounter := s.idCounter + 1 })

/-- TodoServiceLive.update (src/services/TodoService.ts first unit,
lines 62-83): look the todo up, validate a provided title, then
overwrite the changed fields in place. -/
def todoUpdate (id : String) (input : UpdateTodoInput) (now : Nat) : Eff TodoStore Todo :=
  Eff.bindE (todoGetById id) (fun todo => fun s =>
    if Option.any isBlank input.title then
      (Except.error (AppError.validation "Title cannot be empty"), s)
    else
      let updatedTodo : Todo :=
        { todo with
          title := input.title.getD todo.title,
          description := match input.description with | some d => some d | none => todo.description,
          completed := input.completed.getD todo.completed,
          updatedAt := now }
      (Except.ok updatedTodo, { s with todos := setEntry id updatedTodo s.todos }))

/-- TodoServiceLive.delete (src/services/TodoService.ts first unit,
lines 85-89). -/
def todoDelete (id : String) : Eff TodoStore PUnit :=
  Eff.bindE (todoGetById id) (fun _ => fun s =>
    (Except.ok PUnit.unit, { s with todos := eraseEntry id s.todos }))

/-- Result value of any PostService operation. -/
inductive PostVal where
  | many (l : List Post)
  | one (p : Post)
  | unit
deriving DecidableEq, Repr

/-- One PostService call, as issued by a Program. -/
inductive PostOp where
  | getAll
  | getById (id : String)
  | getByUserId (userId : String)
  | create (input : CreatePostInput) (now : Nat)
  | update (id : String) (input : UpdatePostInput) (now : Nat)
  | delete (id : String)
deriving DecidableEq, Repr

/-- Dispatch a PostService call to its implementation. -/
def runPostOp : PostOp → Eff Backend PostVal
  | PostOp.getAll => Eff.mapE PostVal.many postGetAll
  | PostOp.getById id => Eff.mapE PostVal.one (postGetById id)
  | PostOp.getByUserId u => Eff.mapE PostVal.many (postGetByUserId u)
  | PostOp.create input now => Eff.mapE PostVal.one (postCreate input now)
  | PostOp.update id input now => Eff.mapE PostVal.one (postUpdate id input now)
  | PostOp.delete id => Eff.mapE (fun _ => PostVal.unit) (postDelete id)

/-- One database-backed UserService call, as issued by a Program. -/
inductive UserDbOp where
  | getAll
  | getById (id : String)
  | getByUsername (username : String)
  | create (input : CreateUserInput) (now : Nat)
  | update (id : String) (input : UpdateUserInput) (now : Nat)
  | delete (id : String)
deriving DecidableEq, Repr

/-- Dispatch a database-backed UserService call to its
implementation. -/
def runUserDbOp : UserDbOp → Eff Backend UserVal
  | UserDbOp.getAll => Eff.mapE UserVal.many userGetAllDb
  | UserDbOp.getById id => Eff.mapE UserVal.one (userGetByIdDb id)
  | UserDbOp.getByUsername u => Eff.mapE UserVal.one (userGetByUsernameDb u)
  | UserDbOp.create input now => Eff.mapE UserVal.one (userCreateDb input now)
  | UserDbOp.update id input now => Eff.mapE UserVal.one (userUpdateDb id input now)
  | UserDbOp.delete id => Eff.mapE (fun _ => UserVal.unit) (userDeleteDb id)

/-- Result value of any TodoService operation. -/
inductive TodoVal where
  | many (l : List Todo)
  | one (t : Todo)
  | unit
deriving DecidableEq, Repr

/-- One in-memory TodoService call, as issued by a Program. -/
inductive TodoOp where
  | getAll
  | getById (id : String)
  | create (input : CreateTodoInput) (now : Nat)
  | update (id : String) (input : UpdateTodoInput) (now : Nat)
  | delete (id : String)
deriving DecidableEq, Repr

/-- Dispatch a TodoService call to its implementation. -/
def runTodoOp : TodoOp → Eff TodoStore TodoVal
  | TodoOp.getAll => Eff.mapE TodoVal.many todoGetAll
  | TodoOp.getById id => Eff.mapE TodoVal.one (todoGetById id)
  | TodoOp.create input now => Eff.mapE TodoVal.one (todoCreate input now)
  | TodoOp.update id input now => Eff.mapE TodoVal.one (todoUpdate id input now)
  | TodoOp.delete id => Eff.mapE (fun _ => TodoVal.unit) (todoDelete id)

/-- Stringified rejections that the scripted backend can produce: the
raw backend errors a run may encounter. -/
def scriptMsgs (fs : List (Option String)) : List String := fs.filterMap id

/-- The error is a UserNotFoundError. -/
def isUserNotFound (e : AppError) : Prop := ∃ i, e = AppError.userNotFound i

/-- The error is a UserAlreadyExistsError. -/
def isAlreadyExists (e : AppError) : Prop := ∃ u, e = AppError.userAlreadyExists u

/-- The error is a PostNotFoundError. -/
def isPostNotFound (e : AppError) : Prop := ∃ i, e = AppError.postNotFound i

/-- The error is a TodoNotFoundError. -/
def isTodoNotFound (e : AppError) : Prop := ∃ i, e = AppError.todoNotFound i

/-- The error is a ValidationError. -/
def isValidation (e : AppError) : Prop := ∃ m, e = AppError.validation m

/-- The error is a DatabaseError. -/
def isDbError (e : AppError) : Prop := ∃ m, e = AppError.databaseError m

/-- Declared error signature of each PostService operation, from the
service interface (src/services/PostService.ts lines 15-39). -/
def declaredPostError : PostOp → AppError → Prop
  | PostOp.getAll, e => isDbError e
  | PostOp.getById _, e => isPostNotFound e ∨ isDbError e
  | PostOp.getByUserId _, e => isDbError e
  | PostOp.create _ _, e => isValidation e ∨ isUserNotFound e ∨ isDbError e
  | PostOp.update _ _ _, e => isPostNotFound e ∨ isValidation e ∨ isDbError e
  | PostOp.delete _, e => isPostNotFound e ∨ isDbError e

/-- Declared error signature of each database-backed UserService
operation, from the service interface (src/services/TodoService.ts
second unit, lines 115-140). -/
def declaredUserDbError : UserDbOp → AppError → Prop
  | UserDbOp.getAll, e => isDbError e
  | UserDbOp.getById _, e => isUserNotFound e ∨ isDbError e
  | UserDbOp.getByUsername _, e => isUserNotFound e ∨ isDbError e
  | UserDbOp.create _ _, e => isValidation e ∨ isAlreadyExists e ∨ isDbError e
  | UserDbOp.update _ _ _, e => isUserNotFound e ∨ isValidation e ∨ isDbError e
  | UserDbOp.delete _, e => isUserNotFound e ∨ isDbError e

/-- Declared error signature of each in-memory UserService operation,
from the service interface (src/services/UserService.ts lines 10-27);
getAll declares never. -/
def declaredUserMemError : UserOp → AppError → Prop
  | UserOp.getAll, _ => False
  | UserOp.getById _, e => isUserNotFound e
  | UserOp.getByUsername _, e => isUserNotFound e
  | UserOp.create _ _, e => isValidation e ∨ isAlreadyExists e
  | UserOp.update _ _ _, e => isUserNotFound e ∨ isValidation e
  | UserOp.delete _, e => isUserNotFound e

/-- Declared error signature of each TodoService operation, from the
service interface (src/services/TodoService.ts first unit, lines 6-20);
getAll declares never. -/
def declaredTodoError : TodoOp → AppError → Prop
  | TodoOp.getAll, _ => False
  | TodoOp.getById _, e => isTodoNotFound e
  | TodoOp.create _ _, e => isValidation e
  | TodoOp.update _ _ _, e => isTodoNotFound e ∨ isValidation e
  | TodoOp.delete _, e => isTodoNotFound e

/-- No two stored users share a username. -/
def usernameUnique (s : UserStore) : Prop :=
  s.users.Pairwise (fun a b => a.2.username ≠ b.2.username)

/-- Backend with an empty database and a backend script that always
succeeds. -/
def emptyBackend : Backend :=
  { db := { users := [], posts := [], nextUserId := 1, nextPostId := 1 },
    failures := [], trace := [] }

/-- Fresh resource state used by concrete instantiations. -/
def demoResource : DbResource := { conn := { isOpen := true, endCount := 0 }, log := [] }

/-- Concrete create input used by concrete instantiations. -/
def demoInputA : CreateUserInput :=
  { username := "alice", email := "alice@mail.dev", displayName := "Alice", bio := none }

/-- Second concrete create input. -/
def demoInputB : CreateUserInput :=
  { username := "bob", email := "bob@mail.dev", displayName := "Bob", bio := none }

/-- The user that creating demoInputA at time 1 in the empty store
produces. -/
def demoUserA : User :=
  { id := "1", username := "alice", email := "alice@mail.dev", displayName := "Alice",
    bio := none, createdAt := 1, updatedAt := 1 }

/-- Empty in-memory store as constructed by the layer. -/
def demoStore0 : UserStore := { users := [], idCounter := 1 }

/-- Store after creating demoUserA. -/
def demoStore1 : UserStore := { users := [("1", demoUserA)], idCounter := 2 }

/-- Three-step Program: create alice, fetch a missing user, create bob. -/
def demoSteps : List (Eff UserStore PUnit) :=
  [Eff.unitE (userCreate demoInputA 1),
   Eff.unitE (userGetById "missing"),
   Eff.unitE (userCreate demoInputB 2)]

/-- Update input changing only the email. -/
def demoUpdateInput : UpdateUserInput :=
  { email := some "new@mail.dev", displayName := none, bio := none }

/-- demoUserA after applying demoUpdateInput at time 9. -/
def demoUserA2 : User :=
  { id := "1", username := "alice", email := "new@mail.dev", displayName := "Alice",
    bio := none, createdAt := 1, updatedAt := 9 }

/-- Store after the demo update. -/
def demoStore2 : UserStore := { users := [("1", demoUserA2)], idCounter := 2 }

/-- Decidable equality of outcomes, so that witnesses can evaluate the
embedded operations on concrete inputs. -/
instance {ε α : Type} [DecidableEq ε] [DecidableEq α] : DecidableEq (Except ε α) := fun a b =>
  match a, b with
  | Except.ok x, Except.ok y =>
      if h : x = y then Decidable.isTrue (by rw [h])
      else Decidable.isFalse (fun hc => h (by injection hc))
  | Except.ok _, Except.error _ => Decidable.isFalse (fun hc => Except.noConfusion hc)
  | Except.error _, Except.ok _ => Decidable.isFalse (fun hc => Except.noConfusion hc)
  | Except.error x, Except.error y =>
      if h : x = y then Decidable.isTrue (by rw [h])
      else Decidable.isFalse (fun hc => h (by injection hc))

theorem clientEnd_isOpen (c : Conn) : (clientEnd c).isOpen = false := by
  unfold clientEnd
  split <;> simp_all

theorem releaseFin_conn_closed {t : DbResource} (h : t.conn.isOpen = false) :
    (releaseFin t).conn = t.conn := by
  show clientEnd t.conn = t.conn
  unfold clientEnd
  simp [h]

theorem iterate_releaseFin_conn {m : Nat} {t : DbResource} (h : t.conn.isOpen = false) :
    (releaseFin^[m] t).conn = t.conn := by
  induction m generalizing t with
  | zero => rfl
  | succ k ih =>
      have h1 : (releaseFin t).conn.isOpen = false := clientEnd_isOpen t.conn
      rw [Function.iterate_succ_apply, ih h1, releaseFin_conn_closed h]

/-- C1: the finalizer registered by DatabaseServiceLive runs on every
exit path from the owning scope (normal completion, Failure, defect)
and the pooled connection is torn down exactly once and ends up closed;
invoking release more than once has the same observable effect on the
connection (open state and teardown count) as invoking it once. -/
theorem c1_release_every_exit_exactly_once :
    (∀ exitK : ExitKind,
        (runScopedDb exitK).2.conn.endCount = 1 ∧ (runScopedDb exitK).2.conn.isOpen = false)
    ∧ (∀ (n : Nat) (s : DbResource), 1 ≤ n →
        (releaseFin^[n] s).conn = (releaseFin s).conn) := by
  constructor
  · intro exitK
    exact ⟨rfl, rfl⟩
  · intro n s hn
    obtain ⟨m, rfl⟩ := Nat.exists_eq_add_of_le hn
    rw [Nat.add_comm, Function.iterate_succ_apply]
    exact iterate_releaseFin_conn (clientEnd_isOpen s.conn)

theorem c1_release_every_exit_exactly_once_witness :
    ((runScopedDb ExitKind.success).2.conn.endCount = 1 ∧
      (runScopedDb ExitKind.success).2.conn.isOpen = false) ∧
    (releaseFin^[3] demoResource).conn = (releaseFin demoResource).conn :=
  ⟨c1_release_every_exit_exactly_once.1 ExitKind.success,
   c1_release_every_exit_exactly_once.2 3 demoResource (by decide)⟩

theorem seqSteps_cons_ok {σ : Type} {s1 : Eff σ PUnit} {s0 s2 : σ} {a : PUnit}
    (h : s1 s0 = (Except.ok a, s2)) (rest : List (Eff σ PUnit)) :
    seqSteps (s1 :: rest) s0 = seqSteps rest s2 := by
  simp [seqSteps, Eff.bindE, h]

theorem seqSteps_cons_error {σ : Type} {s1 : Eff σ PUnit} {s0 s2 : σ} {e : AppError}
    (h : s1 s0 = (Except.error e, s2)) (rest : List (Eff σ PUnit)) :
    seqSteps (s1 :: rest) s0 = (Except.error e, s2) := by
  simp [seqSteps, Eff.bindE, h]

/-- C2: in a Program of sequential service-call steps, if the first k
steps succeed and step k produces a Failure, the whole Program's
outcome is exactly that Failure with the state step k left behind, and
the run coincides with the run of the Program truncated after step k,
so steps k+1..n never execute. -/
theorem c2_short_circuit {σ : Type} (steps : List (Eff σ PUnit)) (k : Nat)
    (s0 sk sk' : σ) (st : Eff σ PUnit) (e : AppError)
    (hpre : seqSteps (steps.take k) s0 = (Except.ok PUnit.unit, sk))
    (hstep : steps[k]? = some st)
    (hfail : st sk = (Except.error e, sk')) :
    seqSteps steps s0 = (Except.error e, sk') ∧
      seqSteps steps s0 = seqSteps (steps.take (k + 1)) s0 := by
  induction k generalizing steps s0 with
  | zero =>
      cases steps with
      | nil => simp at hstep
      | cons s1 rest =>
          have hst : st = s1 := by
            have := hstep
            simp at this
            exact this.symm
          subst hst
          have hs0 : s0 = sk := by
            simpa [seqSteps, Eff.pureE] using hpre
          subst hs0
          refine ⟨?_, ?_⟩
          · simp [seqSteps, Eff.bindE, hfail]
          · simp [seqSteps, Eff.bindE, hfail]
  | succ m ih =>
      cases steps with
      | nil => simp at hstep
      | cons s1 rest =>
          rw [List.take_succ_cons] at hpre
          rcases h1 : s1 s0 with ⟨r1, s1'⟩
          cases r1 with
          | error e1 =>
              rw [seqSteps_cons_error h1] at hpre
              exact absurd hpre (by simp)
          | ok a =>
              rw [seqSteps_cons_ok h1] at hpre
              have hstep2 : rest[m]? = some st := by simpa using hstep
              obtain ⟨ha, hb⟩ := ih rest s1' hpre hstep2
              refine ⟨?_, ?_⟩
              · rw [seqSteps_cons_ok h1]
                exact ha
              · rw [List.take_succ_cons, seqSteps_cons_ok h1, seqSteps_cons_ok h1]
                exact hb

theorem c2_short_circuit_witness :
    seqSteps demoSteps demoStore0 = (Except.error (AppError.userNotFound "missing"), demoStore1) ∧
      seqSteps demoSteps demoStore0 = seqSteps (demoSteps.take 2) demoStore0 :=
  c2_short_circuit demoSteps 1 demoStore0 demoStore1 demoStore1
    (Eff.unitE (userGetById "missing")) (AppError.userNotFound "missing")
    (by decide) (by rfl) (by decide)

/-- C5: a create whose input fails validation returns the Validation
Failure immediately and issues no operation against the backing store:
the whole backend state (database, script, trace of issued operations)
is returned unchanged, both for PostServiceLive.create and for the
database-backed UserServiceLive.create. -/
theorem c5_validation_no_storage :
    (∀ (input : CreatePostInput) (now : Nat) (s : Backend),
        isBlank input.content = true ∨ 280 < input.content.length →
        ∃ m, postCreate input now s = (Except.error (AppError.validation m), s))
    ∧ (∀ (input : CreateUserInput) (now : Nat) (s : Backend),
        isBlank input.username = true ∨ isBlank input.email = true ∨
          isBlank input.displayName = true →
        ∃ m, userCreateDb input now s = (Except.error (AppError.validation m), s)) := by
  constructor
  · rintro input now s (h | h)
    · exact ⟨"Post content is required", by simp [postCreate, h]⟩
    · by_cases hb : isBlank input.content = true
      · exact ⟨"Post content is required", by simp [postCreate, hb]⟩
      · exact ⟨"Post content must be 280 characters or less", by simp [postCreate, hb, h]⟩
  · rintro input now s (h | h | h)
    · exact ⟨"Username is required", by simp [userCreateDb, h]⟩
    · by_cases hu : isBlank input.username = true
      · exact ⟨"Username is required", by simp [userCreateDb, hu]⟩
      · exact ⟨"Email is required", by simp [userCreateDb, hu, h]⟩
    · by_cases hu : isBlank input.username = true
      · exact ⟨"Username is required", by simp [userCreateDb, hu]⟩
      · by_cases he : isBlank input.email = true
        · exact ⟨"Email is required", by simp [userCreateDb, hu, he]⟩
        · exact ⟨"Display name is required", by simp [userCreateDb, hu, he, h]⟩

theorem c5_validation_no_storage_witness :
    ∃ m, postCreate { userId := "1", content := "" } 0 emptyBackend =
      (Except.error (AppError.validation m), emptyBackend) :=
  c5_validation_no_storage.1 { userId := "1", content := "" } 0 emptyBackend
    (Or.inl (by decide))

theorem mapE_eq_of {σ α β : Type} {f : α → β} {x : Eff σ α} {s : σ} {r : Except AppError α}
    {s1 : σ} (hx : x s = (r, s1)) : Eff.mapE f x s = (r.map f, s1) := by
  unfold Eff.mapE
  rw [hx]
  cases r <;> rfl

theorem userGetById_snd (id : String) (s : UserStore) : (userGetById id s).2 = s := by
  unfold userGetById
  cases lookupEntry id s.users <;> rfl

theorem userGetById_ok {id : String} {s : UserStore} {u : User} {s1 : UserStore}
    (h : userGetById id s = (Except.ok u, s1)) :
    lookupEntry id s.users = some u ∧ s1 = s := by
  unfold userGetById at h
  cases hl : lookupEntry id s.users <;> rw [hl] at h <;> simp_all

theorem userGetByUsername_snd (username : String) (s : UserStore) :
    (userGetByUsername username s).2 = s := by
  unfold userGetByUsername
  cases (s.users.map Prod.snd).find? (fun u => u.username == username) <;> rfl

theorem userCreate_error {input : CreateUserInput} {now : Nat} {s : UserStore}
    {e : AppError} {s2 : UserStore}
    (h : userCreate input now s = (Except.error e, s2)) : s2 = s := by
  unfold userCreate at h
  by_cases h1 : isBlank input.username = true
  · simp only [h1, if_true] at h
    exact congrArg Prod.snd h |>.symm
  · simp only [h1, if_false, Bool.not_eq_true] at h
    rw [if_neg (by simp_all)] at h
    by_cases h2 : isBlank input.email = true
    · rw [if_pos (by simp_all)] at h
      exact congrArg Prod.snd h |>.symm
    · rw [if_neg (by simp_all)] at h
      by_cases h3 : isBlank input.displayName = true
      · rw [if_pos (by simp_all)] at h
        exact congrArg Prod.snd h |>.symm
      · rw [if_neg (by simp_all)] at h
        cases hf : (s.users.map Prod.snd).find? (fun u => u.username == input.username) <;>
          rw [hf] at h
        · simp at h
        · exact congrArg Prod.snd h |>.symm

theorem userUpdate_error {id : String} {input : UpdateUserInput} {now : Nat} {s : UserStore}
    {e : AppError} {s2 : UserStore}
    (h : userUpdate id input now s = (Except.error e, s2)) : s2 = s := by
  unfold userUpdate Eff.bindE at h
  rcases hg : userGetById id s with ⟨rg, sg⟩
  have hsg : sg = s := by
    have := userGetById_snd id s
    rw [hg] at this
    exact this
  rw [hg] at h
  cases rg with
  | error eg =>
      simp only [Prod.mk.injEq] at h
      exact h.2.symm.trans hsg
  | ok u =>
      simp only [] at h
      by_cases h1 : Option.any isBlank input.email = true
      · rw [if_pos h1] at h
        simp only [Prod.mk.injEq] at h
        exact h.2.symm.trans hsg
      · rw [if_neg h1] at h
        by_cases h2 : Option.any isBlank input.displayName = true
        · rw [if_pos h2] at h
          simp only [Prod.mk.injEq] at h
          exact h.2.symm.trans hsg
        · rw [if_neg h2] at h
          simp at h

theorem userDelete_error {id : String} {s : UserStore} {e : AppError} {s2 : UserStore}
    (h : userDelete id s = (Except.error e, s2)) : s2 = s := by
  unfold userDelete Eff.bindE at h
  rcases hg : userGetById id s with ⟨rg, sg⟩
  have hsg : sg = s := by
    have := userGetById_snd id s
    rw [hg] at this
    exact this
  rw [hg] at h
  cases rg with
  | error eg =>
      simp only [Prod.mk.injEq] at h
      exact h.2.symm.trans hsg
  | ok u => simp at h

/-- C7: a failed Program never corrupts the in-memory UserService state:
whenever any operation returns a Failure, the users map and the id
counter are exactly as they were before the operation ran, so the next
Program executes against the same state. -/
theorem c7_failure_leaves_state :
    ∀ (op : UserOp) (s : UserStore) (e : AppError),
      (runUserOp op s).1 = Except.error e → (runUserOp op s).2 = s := by
  intro op s e h
  cases op with
  | getAll => rfl
  | getById id =>
      show (Eff.mapE UserVal.one (userGetById id) s).2 = s
      rcases hx : userGetById id s with ⟨r, s1⟩
      rw [mapE_eq_of hx]
      have := userGetById_snd id s
      rw [hx] at this
      exact this
  | getByUsername u =>
      show (Eff.mapE UserVal.one (userGetByUsername u) s).2 = s
      rcases hx : userGetByUsername u s with ⟨r, s1⟩
      rw [mapE_eq_of hx]
      have := userGetByUsername_snd u s
      rw [hx] at this
      exact this
  | create input now =>
      show (Eff.mapE UserVal.one (userCreate input now) s).2 = s
      rcases hx : userCreate input now s with ⟨r, s1⟩
      rw [mapE_eq_of hx]
      rw [show runUserOp (UserOp.create input now) s =
            Eff.mapE UserVal.one (userCreate input now) s from rfl, mapE_eq_of hx] at h
      cases r with
      | ok a => simp [Except.map] at h
      | error e1 => exact userCreate_error hx
  | update id input now =>
      show (Eff.mapE UserVal.one (userUpdate id input now) s).2 = s
      rcases hx : userUpdate id input now s with ⟨r, s1⟩
      rw [mapE_eq_of hx]
      rw [show runUserOp (UserOp.update id input now) s =
            Eff.mapE UserVal.one (userUpdate id input now) s from rfl, mapE_eq_of hx] at h
      cases r with
      | ok a => simp [Except.map] at h
      | error e1 => exact userUpdate_error hx
  | delete id =>
      show (Eff.mapE (fun _ => UserVal.unit) (userDelete id) s).2 = s
      rcases hx : userDelete id s with ⟨r, s1⟩
      rw [mapE_eq_of hx]
      rw [show runUserOp (UserOp.delete id) s =
            Eff.mapE (fun _ => UserVal.unit) (userDelete id) s from rfl, mapE_eq_of hx] at h
      cases r with
      | ok a => simp [Except.map] at h
      | error e1 => exact userDelete_error hx

theorem c7_failure_leaves_state_witness :
    (runUserOp (UserOp.getById "1") demoStore0).2 = demoStore0 :=
  c7_failure_leaves_state (UserOp.getById "1") demoStore0 (AppError.userNotFound "1")
    (by decide)

/-- C9: getById returns Success of the stored user exactly when a user
with that id is present, and Failure(UserNotFoundError id) exactly when
it is absent; the same dichotomy holds for the database-backed getById
under a backend that does not fail, including the NaN-id path that
cannot match any stored row. -/
theorem c9_get_by_id :
    (∀ (id : String) (s : UserStore) (u : User),
        lookupEntry id s.users = some u → userGetById id s = (Except.ok u, s))
    ∧ (∀ (id : String) (s : UserStore),
        lookupEntry id s.users = none →
        userGetById id s = (Except.error (AppError.userNotFound id), s))
    ∧ (∀ (id : String) (n : Int) (s : Backend) (r : DbUserRow),
        jsParseInt id = some n → s.failures = [] →
        s.db.users.find? (fun row => row.id == n) = some r →
        userGetByIdDb id s =
          (Except.ok (userOfRow r), { s with trace := s.trace ++ [DbOp.selectUserById n] }))
    ∧ (∀ (id : String) (n : Int) (s : Backend),
        jsParseInt id = some n → s.failures = [] →
        s.db.users.find? (fun row => row.id == n) = none →
        userGetByIdDb id s =
          (Except.error (AppError.userNotFound id),
            { s with trace := s.trace ++ [DbOp.selectUserById n] }))
    ∧ (∀ (id : String) (s : Backend),
        jsParseInt id = none →
        userGetByIdDb id s = (Except.error (AppError.userNotFound id), s)) := by
  refine ⟨?_, ?_, ?_, ?_, ?_⟩
  · intro id s u hl
    simp [userGetById, hl]
  · intro id s hl
    simp [userGetById, hl]
  · intro id n s r hp hf hfind
    simp [userGetByIdDb, hp, Eff.bindE, dbCall, hf, qSelectUserById, hfind, Eff.pureE]
  · intro id n s hp hf hfind
    simp [userGetByIdDb, hp, Eff.bindE, dbCall, hf, qSelectUserById, hfind, Eff.failE]
  · intro id s hp
    simp [userGetByIdDb, hp]

theorem c9_get_by_id_witness :
    userGetById "1" demoStore1 = (Except.ok demoUserA, demoStore1) :=
  c9_get_by_id.1 "1" demoStore1 demoUserA (by decide)

/-- C10: a successful in-memory user update keeps id, username and
createdAt exactly as stored; only email, displayName, bio and updatedAt
may change, each in the way the update input dictates, and the store
afterwards holds exactly the updated user under the same key. -/
theorem c10_update_frame :
    ∀ (id : String) (input : UpdateUserInput) (now : Nat) (s : UserStore)
      (u2 : User) (s2 : UserStore),
      userUpdate id input now s = (Except.ok u2, s2) →
      ∃ u, lookupEntry id s.users = some u ∧
        u2.id = u.id ∧ u2.username = u.username ∧ u2.createdAt = u.createdAt ∧
        u2.email = input.email.getD u.email ∧
        u2.displayName = input.displayName.getD u.displayName ∧
        u2.bio = (match input.bio with | some b => some b | none => u.bio) ∧
        u2.updatedAt = now ∧
        s2 = { s with users := setEntry id u2 s.users } := by
  intro id input now s u2 s2 h
  unfold userUpdate Eff.bindE at h
  rcases hg : userGetById id s with ⟨rg, sg⟩
  rw [hg] at h
  cases rg with
  | error eg => simp at h
  | ok u =>
      obtain ⟨hlook, hsg⟩ := userGetById_ok hg
      subst hsg
      simp only [] at h
      by_cases h1 : Option.any isBlank input.email = true
      · rw [if_pos h1] at h
        simp at h
      · rw [if_neg h1] at h
        by_cases h2 : Option.any isBlank input.displayName = true
        · rw [if_pos h2] at h
          simp at h
        · rw [if_neg h2] at h
          simp only [Prod.mk.injEq, Except.ok.injEq] at h
          obtain ⟨hu2, hs2⟩ := h
          subst hu2
          subst hs2
          exact ⟨u, hlook, rfl, rfl, rfl, rfl, rfl, rfl, rfl, rfl⟩

theorem c10_update_frame_witness :
    ∃ u, lookupEntry "1" demoStore1.users = some u ∧
      demoUserA2.id = u.id ∧ demoUserA2.username = u.username ∧
      demoUserA2.createdAt = u.createdAt ∧
      demoUserA2.email = demoUpdateInput.email.getD u.email ∧
      demoUserA2.displayName = demoUpdateInput.displayName.getD u.displayName ∧
      demoUserA2.bio = (match demoUpdateInput.bio with | some b => some b | none => u.bio) ∧
      demoUserA2.updatedAt = 9 ∧
      demoStore2 = { demoStore1 with users := setEntry "1" demoUserA2 demoStore1.users } :=
  c10_update_frame "1" demoUpdateInput 9 demoStore1 demoUserA2 demoStore2 (by decide)

theorem mem_setEntry {k : String} {v : User} {l : List (String × User)} {x : String × User}
    (hx : x ∈ setEntry k v l) : x = (k, v) ∨ x ∈ l := by
  induction l with
  | nil =>
      simp [setEntry] at hx
      exact Or.inl hx
  | cons p rest ih =>
      obtain ⟨k0, v0⟩ := p
      unfold setEntry at hx
      by_cases hk : k0 = k
      · rw [if_pos hk] at hx
        rcases List.mem_cons.mp hx with h | h
        · exact Or.inl h
        · exact Or.inr (List.mem_cons_of_mem _ h)
      · rw [if_neg hk] at hx
        rcases List.mem_cons.mp hx with h | h
        · exact Or.inr (h ▸ List.mem_cons_self _ _)
        · rcases ih h with h2 | h2
          · exact Or.inl h2
          · exact Or.inr (List.mem_cons_of_mem _ h2)

theorem pairwise_setEntry_fresh {k : String} {v : User} {l : List (String × User)}
    (hfresh : ∀ p ∈ l, p.2.username ≠ v.username)
    (hp : l.Pairwise (fun a b => a.2.username ≠ b.2.username)) :
    (setEntry k v l).Pairwise (fun a b => a.2.username ≠ b.2.username) := by
  induction l with
  | nil => simp [setEntry]
  | cons p rest ih =>
      obtain ⟨k0, v0⟩ := p
      rw [List.pairwise_cons] at hp
      unfold setEntry
      by_cases hk : k0 = k
      · rw [if_pos hk, List.pairwise_cons]
        refine ⟨?_, hp.2⟩
        intro b hb hcontra
        exact hfresh b (List.mem_cons_of_mem _ hb) hcontra.symm
      · rw [if_neg hk, List.pairwise_cons]
        refine ⟨?_, ih (fun q hq => hfresh q (List.mem_cons_of_mem _ hq)) hp.2⟩
        intro b hb
        rcases mem_setEntry hb with h | h
        · subst h
          exact hfresh (k0, v0) (List.mem_cons_self _ _)
        · exact hp.1 b h

theorem lookupEntry_mem {k : String} {l : List (String × User)} {u : User}
    (h : lookupEntry k l = some u) : (k, u) ∈ l := by
  unfold lookupEntry at h
  cases hf : l.find? (fun p => p.1 == k) with
  | none => rw [hf] at h; simp at h
  | some p =>
      rw [hf] at h
      simp at h
      have hmem := List.mem_of_find?_eq_some hf
      have hpred := List.find?_some hf
      obtain ⟨p1, p2⟩ := p
      have hk : p1 = k := by simpa using hpred
      subst hk
      subst h
      exact hmem

theorem pairwise_setEntry_keep {k : String} {u w : User} {l : List (String × User)}
    (hlook : lookupEntry k l = some u) (hname : w.username = u.username)
    (hp : l.Pairwise (fun a b => a.2.username ≠ b.2.username)) :
    (setEntry k w l).Pairwise (fun a b => a.2.username ≠ b.2.username) := by
  induction l with
  | nil => simp [lookupEntry] at hlook
  | cons p rest ih =>
      obtain ⟨k0, v0⟩ := p
      rw [List.pairwise_cons] at hp
      unfold setEntry
      by_cases hk : k0 = k
      · rw [if_pos hk, List.pairwise_cons]
        have hu : v0 = u := by
          unfold lookupEntry at hlook
          rw [List.find?_cons_of_pos _ (by simpa using hk)] at hlook
          simpa using hlook
        refine ⟨?_, hp.2⟩
        intro b hb hcontra
        refine hp.1 b hb ?_
        show v0.username = b.2.username
        rw [hu, ← hname]
        exact hcontra
      · rw [if_neg hk]
        have hlook2 : lookupEntry k rest = some u := by
          unfold lookupEntry at hlook ⊢
          rw [List.find?_cons_of_neg _ (by simpa using hk)] at hlook
          exact hlook
        rw [List.pairwise_cons]
        refine ⟨?_, ih hlook2 hp.2⟩
        intro b hb
        rcases mem_setEntry hb with h | h
        · subst h
          intro hcontra
          exact hp.1 (k, u) (lookupEntry_mem hlook2) (by rw [hcontra]; exact hname)
        · exact hp.1 b h

theorem userCreate_ok {input : CreateUserInput} {now : Nat} {s : UserStore}
    {u2 : User} {s2 : UserStore}
    (h : userCreate input now s = (Except.ok u2, s2)) :
    (∀ p ∈ s.users, p.2.username ≠ input.username) ∧
      u2.username = input.username ∧
      s2 = { users := setEntry (toString s.idCounter) u2 s.users,
             idCounter := s.idCounter + 1 } := by
  unfold userCreate at h
  by_cases h1 : isBlank input.username = true
  · rw [if_pos h1] at h; simp at h
  · rw [if_neg h1] at h
    by_cases h2 : isBlank input.email = true
    · rw [if_pos h2] at h; simp at h
    · rw [if_neg h2] at h
      by_cases h3 : isBlank input.displayName = true
      · rw [if_pos h3] at h; simp at h
      · rw [if_neg h3] at h
        cases hf : (s.users.map Prod.snd).find? (fun w => w.username == input.username) with
        | some w => rw [hf] at h; simp at h
        | none =>
            rw [hf] at h
            simp only [Prod.mk.injEq, Except.ok.injEq] at h
            obtain ⟨hu2, hs2⟩ := h
            subst hu2
            refine ⟨?_, rfl, hs2.symm⟩
            intro p hpmem hcontra
            rw [List.find?_eq_none] at hf
            exact absurd (by simp [hcontra])
              (hf p.2 (List.mem_map_of_mem Prod.snd hpmem))

theorem userUpdate_ok {id : String} {input : UpdateUserInput} {now : Nat} {s : UserStore}
    {u2 : User} {s2 : UserStore}
    (h : userUpdate id input now s = (Except.ok u2, s2)) :
    ∃ u, lookupEntry id s.users = some u ∧ u2.username = u.username ∧
      s2 = { s with users := setEntry id u2 s.users } := by
  unfold userUpdate Eff.bindE at h
  rcases hg : userGetById id s with ⟨rg, sg⟩
  rw [hg] at h
  cases rg with
  | error eg => simp at h
  | ok u =>
      obtain ⟨hlook, hsg⟩ := userGetById_ok hg
      subst hsg
      simp only [] at h
      by_cases h1 : Option.any isBlank input.email = true
      · rw [if_pos h1] at h; simp at h
      · rw [if_neg h1] at h
        by_cases h2 : Option.any isBlank input.displayName = true
        · rw [if_pos h2] at h; simp at h
        · rw [if_neg h2] at h
          simp only [Prod.mk.injEq, Except.ok.injEq] at h
          obtain ⟨hu2, hs2⟩ := h
          subst hu2
          exact ⟨u, hlook, rfl, hs2.symm⟩

theorem eraseEntry_sublist (k : String) (l : List (String × User)) :
    (eraseEntry k l).Sublist l := by
  induction l with
  | nil => simp [eraseEntry]
  | cons p rest ih =>
      obtain ⟨k0, v0⟩ := p
      unfold eraseEntry
      by_cases hk : k0 = k
      · rw [if_pos hk]
        exact List.sublist_cons_self _ _
      · rw [if_neg hk]
        exact ih.cons₂ _

theorem userDelete_ok {id : String} {s : UserStore} {v : PUnit} {s2 : UserStore}
    (h : userDelete id s = (Except.ok v, s2)) :
    s2 = { s with users := eraseEntry id s.users } := by
  unfold userDelete Eff.bindE at h
  rcases hg : userGetById id s with ⟨rg, sg⟩
  rw [hg] at h
  cases rg with
  | error eg => simp at h
  | ok u =>
      obtain ⟨_, hsg⟩ := userGetById_ok hg
      subst hsg
      simp only [Prod.mk.injEq] at h
      exact h.2.symm

/-- C8: creating a user whose username equals the username of an already
stored user fails with UserAlreadyExistsError carrying that username
and leaves the store unchanged; and every UserService operation
preserves the invariant that no two stored users share a username, so
at most one user with a given username ever exists in the store. -/
theorem c8_duplicate_username :
    (∀ (input : CreateUserInput) (now : Nat) (s : UserStore) (u : User),
        isBlank input.username = false → isBlank input.email = false →
        isBlank input.displayName = false →
        u ∈ s.users.map Prod.snd → u.username = input.username →
        userCreate input now s =
          (Except.error (AppError.userAlreadyExists input.username), s))
    ∧ (∀ (op : UserOp) (s : UserStore),
        usernameUnique s → usernameUnique (runUserOp op s).2) := by
  constructor
  · intro input now s u h1 h2 h3 hmem hname
    unfold userCreate
    rw [if_neg (by simp [h1]), if_neg (by simp [h2]), if_neg (by simp [h3])]
    cases hf : (s.users.map Prod.snd).find? (fun u2 => u2.username == input.username) with
    | some w => rfl
    | none =>
        exfalso
        rw [List.find?_eq_none] at hf
        exact hf u hmem (by simp [hname])
  · intro op s hu
    cases op with
    | getAll => exact hu
    | getById id =>
        rcases hx : userGetById id s with ⟨r, s1⟩
        show usernameUnique (Eff.mapE UserVal.one (userGetById id) s).2
        rw [mapE_eq_of hx]
        have := userGetById_snd id s
        rw [hx] at this
        exact this ▸ hu
    | getByUsername un =>
        rcases hx : userGetByUsername un s with ⟨r, s1⟩
        show usernameUnique (Eff.mapE UserVal.one (userGetByUsername un) s).2
        rw [mapE_eq_of hx]
        have := userGetByUsername_snd un s
        rw [hx] at this
        exact this ▸ hu
    | create input now =>
        rcases hx : userCreate input now s with ⟨r, s1⟩
        show usernameUnique (Eff.mapE UserVal.one (userCreate input now) s).2
        rw [mapE_eq_of hx]
        cases r with
        | error e1 => exact (userCreate_error hx) ▸ hu
        | ok u2 =>
            obtain ⟨hfresh, hname, hs1⟩ := userCreate_ok hx
            subst hs1
            show (setEntry (toString s.idCounter) u2 s.users).Pairwise
              (fun a b => a.2.username ≠ b.2.username)
            exact pairwise_setEntry_fresh
              (fun p hp hc => hfresh p hp (hc.trans hname)) hu
    | update id input now =>
        rcases hx : userUpdate id input now s with ⟨r, s1⟩
        show usernameUnique (Eff.mapE UserVal.one (userUpdate id input now) s).2
        rw [mapE_eq_of hx]
        cases r with
        | error e1 => exact (userUpdate_error hx) ▸ hu
        | ok u2 =>
            obtain ⟨u, hlook, hname, hs1⟩ := userUpdate_ok hx
            subst hs1
            show (setEntry id u2 s.users).Pairwise (fun a b => a.2.username ≠ b.2.username)
            exact pairwise_setEntry_keep hlook hname hu
    | delete id =>
        rcases hx : userDelete id s with ⟨r, s1⟩
        show usernameUnique (Eff.mapE (fun _ => UserVal.unit) (userDelete id) s).2
        rw [mapE_eq_of hx]
        cases r with
        | error e1 => exact (userDelete_error hx) ▸ hu
        | ok v =>
            rw [userDelete_ok hx]
            show (eraseEntry id s.users).Pairwise (fun a b => a.2.username ≠ b.2.username)
            exact hu.sublist (eraseEntry_sublist id s.users)

theorem c8_duplicate_username_witness :
    userCreate demoInputA 5 demoStore1 =
      (Except.error (AppError.userAlreadyExists "alice"), demoStore1) ∧
    usernameUnique (runUserOp (UserOp.create demoInputA 5) demoStore1).2 :=
  ⟨c8_duplicate_username.1 demoInputA 5 demoStore1 demoUserA (by decide) (by decide)
      (by decide) (by decide) (by decide),
   c8_duplicate_username.2 (UserOp.create demoInputA 5) demoStore1
      (by simp [usernameUnique, demoStore1])⟩

theorem scriptMsgs_tail_subset {fs : List (Option String)} {m : String}
    (hm : m ∈ scriptMsgs fs.tail) : m ∈ scriptMsgs fs :=
  List.Sublist.subset (List.Sublist.filterMap id (List.tail_sublist fs)) hm

theorem dbCall_error {ρ : Type} {op : DbOp} {q : DbState → DbState × ρ} {s : Backend}
    {e : AppError} {s2 : Backend}
    (h : dbCall op q s = (Except.error e, s2)) :
    ∃ m, e = AppError.databaseError m ∧ m ∈ scriptMsgs s.failures := by
  unfold dbCall at h
  cases hfs : s.failures with
  | nil => rw [hfs] at h; simp at h
  | cons f rest =>
      rw [hfs] at h
      cases f with
      | none => simp at h
      | some msg =>
          simp only [Prod.mk.injEq, Except.error.injEq] at h
          refine ⟨msg, h.1.symm, ?_⟩
          simp [scriptMsgs]

theorem dbCall_ok {ρ : Type} {op : DbOp} {q : DbState → DbState × ρ} {s : Backend}
    {r : ρ} {s2 : Backend}
    (h : dbCall op q s = (Except.ok r, s2)) :
    s2.db = (q s.db).1 ∧ r = (q s.db).2 ∧ s2.failures = s.failures.tail ∧
      s2.trace = s.trace ++ [op] := by
  unfold dbCall at h
  cases hfs : s.failures with
  | nil =>
      rw [hfs] at h
      simp only [Prod.mk.injEq, Except.ok.injEq] at h
      obtain ⟨hr, hs⟩ := h
      subst hs
      exact ⟨rfl, hr.symm, by simp [hfs], rfl⟩
  | cons f rest =>
      rw [hfs] at h
      cases f with
      | some msg => simp at h
      | none =>
          simp only [Prod.mk.injEq, Except.ok.injEq] at h
          obtain ⟨hr, hs⟩ := h
          subst hs
          exact ⟨rfl, hr.symm, by simp [hfs], rfl⟩

theorem postGetById_error {id : String} {s : Backend} {e : AppError} {s2 : Backend}
    (h : postGetById id s = (Except.error e, s2)) :
    (∃ i, e = AppError.postNotFound i) ∨
      ∃ m, e = AppError.databaseError m ∧ m ∈ scriptMsgs s.failures := by
  unfold postGetById at h
  cases hp : jsParseInt id with
  | none =>
      rw [hp] at h
      simp only [Prod.mk.injEq, Except.error.injEq] at h
      exact Or.inl ⟨id, h.1.symm⟩
  | some n =>
      rw [hp] at h
      simp only [] at h
      unfold Eff.bindE at h
      rcases hc : dbCall (DbOp.selectPostById n) (qSelectPostById n) s with ⟨rc, sc⟩
      rw [hc] at h
      cases rc with
      | error ec =>
          simp only [Prod.mk.injEq, Except.error.injEq] at h
          obtain ⟨m, hm, hmem⟩ := dbCall_error hc
          exact Or.inr ⟨m, by rw [← h.1]; exact hm, hmem⟩
      | ok row =>
          cases row with
          | some r => simp [Eff.pureE] at h
          | none =>
              simp only [Eff.failE, Prod.mk.injEq, Except.error.injEq] at h
              exact Or.inl ⟨id, h.1.symm⟩

theorem postGetById_ok {id : String} {s : Backend} {p : Post} {s2 : Backend}
    (h : postGetById id s = (Except.ok p, s2)) :
    ∃ n r, jsParseInt id = some n ∧
      s.db.posts.find? (fun row => row.id == n) = some r ∧
      s2.db = s.db ∧ s2.failures = s.failures.tail := by
  unfold postGetById at h
  cases hp : jsParseInt id with
  | none => rw [hp] at h; simp at h
  | some n =>
      rw [hp] at h
      simp only [] at h
      unfold Eff.bindE at h
      rcases hc : dbCall (DbOp.selectPostById n) (qSelectPostById n) s with ⟨rc, sc⟩
      rw [hc] at h
      cases rc with
      | error ec => simp at h
      | ok row =>
          obtain ⟨hdb, hrow, hfail, htr⟩ := dbCall_ok hc
          cases row with
          | none => simp [Eff.failE] at h
          | some r =>
              simp only [Eff.pureE, Prod.mk.injEq, Except.ok.injEq] at h
              obtain ⟨hpost, hs2⟩ := h
              subst hs2
              exact ⟨n, r, rfl, hrow.symm, hdb, hfail⟩

theorem userGetByIdDb_error {id : String} {s : Backend} {e : AppError} {s2 : Backend}
    (h : userGetByIdDb id s = (Except.error e, s2)) :
    (∃ i, e = AppError.userNotFound i) ∨
      ∃ m, e = AppError.databaseError m ∧ m ∈ scriptMsgs s.failures := by
  unfold userGetByIdDb at h
  cases hp : jsParseInt id with
  | none =>
      rw [hp] at h
      simp only [Prod.mk.injEq, Except.error.injEq] at h
      exact Or.inl ⟨id, h.1.symm⟩
  | some n =>
      rw [hp] at h
      simp only [] at h
      unfold Eff.bindE at h
      rcases hc : dbCall (DbOp.selectUserById n) (qSelectUserById n) s with ⟨rc, sc⟩
      rw [hc] at h
      cases rc with
      | error ec =>
          simp only [Prod.mk.injEq, Except.error.injEq] at h
          obtain ⟨m, hm, hmem⟩ := dbCall_error hc
          exact Or.inr ⟨m, by rw [← h.1]; exact hm, hmem⟩
      | ok row =>
          cases row with
          | some r => simp [Eff.pureE] at h
          | none =>
              simp only [Eff.failE, Prod.mk.injEq, Except.error.injEq] at h
              exact Or.inl ⟨id, h.1.symm⟩

theorem userGetByIdDb_ok {id : String} {s : Backend} {u : User} {s2 : Backend}
    (h : userGetByIdDb id s = (Except.ok u, s2)) :
    ∃ n r, jsParseInt id = some n ∧
      s.db.users.find? (fun row => row.id == n) = some r ∧
      s2.db = s.db ∧ s2.failures = s.failures.tail := by
  unfold userGetByIdDb at h
  cases hp : jsParseInt id with
  | none => rw [hp] at h; simp at h
  | some n =>
      rw [hp] at h
      simp only [] at h
      unfold Eff.bindE at h
      rcases hc : dbCall (DbOp.selectUserById n) (qSelectUserById n) s with ⟨rc, sc⟩
      rw [hc] at h
      cases rc with
      | error ec => simp at h
      | ok row =>
          obtain ⟨hdb, hrow, hfail, htr⟩ := dbCall_ok hc
          cases row with
          | none => simp [Eff.failE] at h
          | some r =>
              simp only [Eff.pureE, Prod.mk.injEq, Except.ok.injEq] at h
              obtain ⟨hu, hs2⟩ := h
              subst hs2
              exact ⟨n, r, rfl, hrow.symm, hdb, hfail⟩

theorem dbError_second {e : AppError} {fs : List (Option String)} {m : String}
    (hm : e = AppError.databaseError m) (hmem : m ∈ scriptMsgs fs) :
    ∀ m2, e = AppError.databaseError m2 → m2 ∈ scriptMsgs fs := by
  intro m2 hm2
  rw [hm] at hm2
  injection hm2 with hx
  subst hx
  exact hmem

theorem mapE_fst_error {σ α β : Type} (f : α → β) (x : Eff σ α) (s : σ) (e : AppError)
    (h : (Eff.mapE f x s).1 = Except.error e) : ∃ s2, x s = (Except.error e, s2) := by
  rcases hx : x s with ⟨r, s1⟩
  rw [mapE_eq_of hx] at h
  cases r with
  | ok a => simp [Except.map] at h
  | error e1 =>
      simp [Except.map] at h
      subst h
      exact ⟨s1, rfl⟩

theorem qUpdatePost_ne_nil {numId : Int} {content : Option String} {now : Nat} {db : DbState}
    {r : DbPostRow} (hfind : db.posts.find? (fun row => row.id == numId) = some r) :
    (qUpdatePost numId content now db).2 ≠ [] := by
  have hmem := List.mem_of_find?_eq_some hfind
  have hpred0 := List.find?_some hfind
  have hpred : (r.id == numId) = true := hpred0
  have hupd := List.mem_map_of_mem
    (fun r2 => if r2.id == numId then
      { r2 with content := content.getD r2.content, updatedAt := now } else r2) hmem
  simp only [] at hupd
  rw [if_pos hpred] at hupd
  have hmemf : ({ r with content := content.getD r.content, updatedAt := now } : DbPostRow) ∈
      (qUpdatePost numId content now db).2 :=
    List.mem_filter.mpr ⟨hupd, hpred⟩
  exact List.ne_nil_of_mem hmemf

theorem qUpdateUser_ne_nil {numId : Int} {input : UpdateUserInput} {now : Nat} {db : DbState}
    {r : DbUserRow} (hfind : db.users.find? (fun row => row.id == numId) = some r) :
    (qUpdateUser numId input now db).2 ≠ [] := by
  have hmem := List.mem_of_find?_eq_some hfind
  have hpred0 := List.find?_some hfind
  have hpred : (r.id == numId) = true := hpred0
  have hupd := List.mem_map_of_mem
    (fun r2 => if r2.id == numId then
      { r2 with email := input.email.getD r2.email,
                displayName := input.displayName.getD r2.displayName,
                bio := (match input.bio with | some b => some b | none => r2.bio),
                updatedAt := now } else r2) hmem
  simp only [] at hupd
  rw [if_pos hpred] at hupd
  exact List.ne_nil_of_mem (List.mem_filter.mpr ⟨hupd, hpred⟩)

theorem postUpdateRest_error {id : String} {numId : Int} {input : UpdatePostInput} {now : Nat}
    {s : Backend} {e : AppError} {s2 : Backend}
    (hpn : jsParseInt id = some numId)
    (h : postUpdateRest id numId input now s = (Except.error e, s2)) :
    (isPostNotFound e ∨ isValidation e ∨ isDbError e) ∧
      ∀ m, e = AppError.databaseError m → m ∈ scriptMsgs s.failures := by
  unfold postUpdateRest Eff.bindE at h
  rcases hg : postGetById id s with ⟨rg, sg⟩
  rw [hg] at h
  cases rg with
  | error eg =>
      simp only [Prod.mk.injEq, Except.error.injEq] at h
      obtain ⟨heg, _⟩ := h
      subst heg
      rcases postGetById_error hg with ⟨i, hi⟩ | ⟨m, hm, hmem⟩
      · refine ⟨Or.inl ⟨i, hi⟩, ?_⟩
        intro m2 hm2
        rw [hi] at hm2
        exact absurd hm2 (by simp)
      · exact ⟨Or.inr (Or.inr ⟨m, hm⟩), dbError_second hm hmem⟩
  | ok post =>
      obtain ⟨n, r, hpn2, hfind, hdb, hfail⟩ := postGetById_ok hg
      have hnn : n = numId := by
        rw [hpn] at hpn2
        injection hpn2 with hx
        exact hx.symm
      subst hnn
      simp only [] at h
      rcases hc : dbCall (DbOp.updatePost n input.content)
          (qUpdatePost n input.content now) sg with ⟨rc, sc⟩
      rw [hc] at h
      cases rc with
      | error ec =>
          simp only [Prod.mk.injEq, Except.error.injEq] at h
          obtain ⟨hec, _⟩ := h
          subst hec
          obtain ⟨m, hm, hmem⟩ := dbCall_error hc
          rw [hfail] at hmem
          exact ⟨Or.inr (Or.inr ⟨m, hm⟩), dbError_second hm (scriptMsgs_tail_subset hmem)⟩
      | ok rows =>
          obtain ⟨hdb2, hrows, _, _⟩ := dbCall_ok hc
          have hne : rows ≠ [] := by
            rw [hrows]
            rw [← hdb] at hfind
            exact qUpdatePost_ne_nil hfind
          simp only [] at h
          cases hh : rows.head? with
          | some r2 => rw [hh] at h; simp [Eff.pureE] at h
          | none => exact absurd (List.head?_eq_none_iff.mp hh) hne

theorem postUpdate_error {id : String} {input : UpdatePostInput} {now : Nat} {s : Backend}
    {e : AppError} {s2 : Backend}
    (h : postUpdate id input now s = (Except.error e, s2)) :
    (isPostNotFound e ∨ isValidation e ∨ isDbError e) ∧
      ∀ m, e = AppError.databaseError m → m ∈ scriptMsgs s.failures := by
  unfold postUpdate at h
  cases hp : jsParseInt id with
  | none =>
      rw [hp] at h
      simp only [Prod.mk.injEq, Except.error.injEq] at h
      obtain ⟨he, _⟩ := h
      subst he
      exact ⟨Or.inl ⟨id, rfl⟩, fun m hm => absurd hm (by simp)⟩
  | some numId =>
      rw [hp] at h
      simp only [] at h
      cases hic : input.content with
      | none =>
          rw [hic] at h
          simp only [] at h
          exact postUpdateRest_error hp h
      | some c =>
          rw [hic] at h
          simp only [] at h
          by_cases h1 : isBlank c = true
          · rw [if_pos h1] at h
            simp only [Eff.failE, Prod.mk.injEq, Except.error.injEq] at h
            obtain ⟨he, _⟩ := h
            subst he
            exact ⟨Or.inr (Or.inl ⟨_, rfl⟩), fun m hm => absurd hm (by simp)⟩
          · rw [if_neg h1] at h
            by_cases h2 : 280 < c.length
            · rw [if_pos h2] at h
              simp only [Eff.failE, Prod.mk.injEq, Except.error.injEq] at h
              obtain ⟨he, _⟩ := h
              subst he
              exact ⟨Or.inr (Or.inl ⟨_, rfl⟩), fun m hm => absurd hm (by simp)⟩
            · rw [if_neg h2] at h
              exact postUpdateRest_error hp h

theorem postCreate_error {input : CreatePostInput} {now : Nat} {s : Backend} {e : AppError}
    {s2 : Backend} (h : postCreate input now s = (Except.error e, s2)) :
    (isValidation e ∨ isUserNotFound e ∨ isDbError e) ∧
      ∀ m, e = AppError.databaseError m → m ∈ scriptMsgs s.failures := by
  unfold postCreate at h
  by_cases h1 : isBlank input.content = true
  · rw [if_pos h1] at h
    simp only [Prod.mk.injEq, Except.error.injEq] at h
    obtain ⟨he, _⟩ := h
    subst he
    exact ⟨Or.inl ⟨_, rfl⟩, fun m hm => absurd hm (by simp)⟩
  · rw [if_neg h1] at h
    by_cases h2 : 280 < input.content.length
    · rw [if_pos h2] at h
      simp only [Prod.mk.injEq, Except.error.injEq] at h
      obtain ⟨he, _⟩ := h
      subst he
      exact ⟨Or.inl ⟨_, rfl⟩, fun m hm => absurd hm (by simp)⟩
    · rw [if_neg h2] at h
      unfold Eff.bindE at h
      rcases hg : userGetByIdDb input.userId s with ⟨rg, sg⟩
      rw [hg] at h
      cases rg with
      | error eg =>
          simp only [Prod.mk.injEq, Except.error.injEq] at h
          obtain ⟨heg, _⟩ := h
          subst heg
          rcases userGetByIdDb_error hg with ⟨i, hi⟩ | ⟨m, hm, hmem⟩
          · refine ⟨Or.inr (Or.inl ⟨i, hi⟩), ?_⟩
            intro m2 hm2
            rw [hi] at hm2
            exact absurd hm2 (by simp)
          · exact ⟨Or.inr (Or.inr ⟨m, hm⟩), dbError_second hm hmem⟩
      | ok u =>
          obtain ⟨n, r, hpn, hfind, hdbx, hfail⟩ := userGetByIdDb_ok hg
          simp only [] at h
          rw [hpn] at h
          simp only [] at h
          rcases hc : dbCall (DbOp.insertPost n input.content)
              (qInsertPost n input.content now) sg with ⟨rc, sc⟩
          rw [hc] at h
          cases rc with
          | error ec =>
              simp only [Prod.mk.injEq, Except.error.injEq] at h
              obtain ⟨hec, _⟩ := h
              subst hec
              obtain ⟨m, hm, hmem⟩ := dbCall_error hc
              rw [hfail] at hmem
              exact ⟨Or.inr (Or.inr ⟨m, hm⟩), dbError_second hm (scriptMsgs_tail_subset hmem)⟩
          | ok row => simp [Eff.pureE] at h

theorem postGetAll_error {s : Backend} {e : AppError} {s2 : Backend}
    (h : postGetAll s = (Except.error e, s2)) :
    isDbError e ∧ ∀ m, e = AppError.databaseError m → m ∈ scriptMsgs s.failures := by
  unfold postGetAll Eff.bindE at h
  rcases hc : dbCall DbOp.selectAllPosts qSelectAllPosts s with ⟨rc, sc⟩
  rw [hc] at h
  cases rc with
  | error ec =>
      simp only [Prod.mk.injEq, Except.error.injEq] at h
      obtain ⟨hec, _⟩ := h
      subst hec
      obtain ⟨m, hm, hmem⟩ := dbCall_error hc
      exact ⟨⟨m, hm⟩, dbError_second hm hmem⟩
  | ok rows => simp [Eff.pureE] at h

theorem postGetByUserId_error {userId : String} {s : Backend} {e : AppError} {s2 : Backend}
    (h : postGetByUserId userId s = (Except.error e, s2)) :
    isDbError e ∧ ∀ m, e = AppError.databaseError m → m ∈ scriptMsgs s.failures := by
  unfold postGetByUserId Eff.bindE at h
  cases hp : jsParseInt userId with
  | none => rw [hp] at h; simp at h
  | some n =>
      rw [hp] at h
      simp only [] at h
      rcases hc : dbCall (DbOp.selectPostsByUser n) (qSelectPostsByUser n) s with ⟨rc, sc⟩
      rw [hc] at h
      cases rc with
      | error ec =>
          simp only [Prod.mk.injEq, Except.error.injEq] at h
          obtain ⟨hec, _⟩ := h
          subst hec
          obtain ⟨m, hm, hmem⟩ := dbCall_error hc
          exact ⟨⟨m, hm⟩, dbError_second hm hmem⟩
      | ok rows => simp [Eff.pureE] at h

theorem postDelete_error {id : String} {s : Backend} {e : AppError} {s2 : Backend}
    (h : postDelete id s = (Except.error e, s2)) :
    (isPostNotFound e ∨ isDbError e) ∧
      ∀ m, e = AppError.databaseError m → m ∈ scriptMsgs s.failures := by
  unfold postDelete Eff.bindE at h
  cases hp : jsParseInt id with
  | none =>
      rw [hp] at h
      simp only [Prod.mk.injEq, Except.error.injEq] at h
      obtain ⟨he, _⟩ := h
      subst he
      exact ⟨Or.inl ⟨id, rfl⟩, fun m hm => absurd hm (by simp)⟩
  | some n =>
      rw [hp] at h
      simp only [] at h
      rcases hg : postGetById id s with ⟨rg, sg⟩
      rw [hg] at h
      cases rg with
      | error eg =>
          simp only [Prod.mk.injEq, Except.error.injEq] at h
          obtain ⟨heg, _⟩ := h
          subst heg
          rcases postGetById_error hg with ⟨i, hi⟩ | ⟨m, hm, hmem⟩
          · refine ⟨Or.inl ⟨i, hi⟩, ?_⟩
            intro m2 hm2
            rw [hi] at hm2
            exact absurd hm2 (by simp)
          · exact ⟨Or.inr ⟨m, hm⟩, dbError_second hm hmem⟩
      | ok p =>
          obtain ⟨n2, r, hpn2, hfind, hdbx, hfail⟩ := postGetById_ok hg
          simp only [] at h
          obtain ⟨m, hm, hmem⟩ := dbCall_error h
          rw [hfail] at hmem
          exact ⟨Or.inr ⟨m, hm⟩, dbError_second hm (scriptMsgs_tail_subset hmem)⟩

theorem userGetAllDb_error {s : Backend} {e : AppError} {s2 : Backend}
    (h : userGetAllDb s = (Except.error e, s2)) :
    isDbError e ∧ ∀ m, e = AppError.databaseError m → m ∈ scriptMsgs s.failures := by
  unfold userGetAllDb Eff.bindE at h
  rcases hc : dbCall DbOp.selectAllUsers qSelectAllUsers s with ⟨rc, sc⟩
  rw [hc] at h
  cases rc with
  | error ec =>
      simp only [Prod.mk.injEq, Except.error.injEq] at h
      obtain ⟨hec, _⟩ := h
      subst hec
      obtain ⟨m, hm, hmem⟩ := dbCall_error hc
      exact ⟨⟨m, hm⟩, dbError_second hm hmem⟩
  | ok rows => simp [Eff.pureE] at h

theorem userGetByUsernameDb_error {username : String} {s : Backend} {e : AppError}
    {s2 : Backend} (h : userGetByUsernameDb username s = (Except.error e, s2)) :
    (isUserNotFound e ∨ isDbError e) ∧
      ∀ m, e = AppError.databaseError m → m ∈ scriptMsgs s.failures := by
  unfold userGetByUsernameDb Eff.bindE at h
  rcases hc : dbCall (DbOp.selectUserByUsername username)
      (qSelectUserByUsername username) s with ⟨rc, sc⟩
  rw [hc] at h
  cases rc with
  | error ec =>
      simp only [Prod.mk.injEq, Except.error.injEq] at h
      obtain ⟨hec, _⟩ := h
      subst hec
      obtain ⟨m, hm, hmem⟩ := dbCall_error hc
      exact ⟨Or.inr ⟨m, hm⟩, dbError_second hm hmem⟩
  | ok row =>
      cases row with
      | some r => simp [Eff.pureE] at h
      | none =>
          simp only [Eff.failE, Prod.mk.injEq, Except.error.injEq] at h
          obtain ⟨he, _⟩ := h
          subst he
          exact ⟨Or.inl ⟨_, rfl⟩, fun m hm => absurd hm (by simp)⟩

theorem userCreateDb_error {input : CreateUserInput} {now : Nat} {s : Backend} {e : AppError}
    {s2 : Backend} (h : userCreateDb input now s = (Except.error e, s2)) :
    (isValidation e ∨ isAlreadyExists e ∨ isDbError e) ∧
      ∀ m, e = AppError.databaseError m → m ∈ scriptMsgs s.failures := by
  unfold userCreateDb Eff.bindE at h
  by_cases h1 : isBlank input.username = true
  · rw [if_pos h1] at h
    simp only [Prod.mk.injEq, Except.error.injEq] at h
    obtain ⟨he, _⟩ := h
    subst he
    exact ⟨Or.inl ⟨_, rfl⟩, fun m hm => absurd hm (by simp)⟩
  · rw [if_neg h1] at h
    by_cases h2 : isBlank input.email = true
    · rw [if_pos h2] at h
      simp only [Prod.mk.injEq, Except.error.injEq] at h
      obtain ⟨he, _⟩ := h
      subst he
      exact ⟨Or.inl ⟨_, rfl⟩, fun m hm => absurd hm (by simp)⟩
    · rw [if_neg h2] at h
      by_cases h3 : isBlank input.displayName = true
      · rw [if_pos h3] at h
        simp only [Prod.mk.injEq, Except.error.injEq] at h
        obtain ⟨he, _⟩ := h
        subst he
        exact ⟨Or.inl ⟨_, rfl⟩, fun m hm => absurd hm (by simp)⟩
      · rw [if_neg h3] at h
        rcases hc : dbCall (DbOp.selectUserByUsername input.username)
            (qSelectUserByUsername input.username) s with ⟨rc, sc⟩
        rw [hc] at h
        cases rc with
        | error ec =>
            simp only [Prod.mk.injEq, Except.error.injEq] at h
            obtain ⟨hec, _⟩ := h
            subst hec
            obtain ⟨m, hm, hmem⟩ := dbCall_error hc
            exact ⟨Or.inr (Or.inr ⟨m, hm⟩), dbError_second hm hmem⟩
        | ok row =>
            obtain ⟨hdbx, hrow, hfail, htr⟩ := dbCall_ok hc
            simp only [] at h
            cases row with
            | some r =>
                simp only [Eff.failE, Prod.mk.injEq, Except.error.injEq] at h
                obtain ⟨he, _⟩ := h
                subst he
                exact ⟨Or.inr (Or.inl ⟨_, rfl⟩), fun m hm => absurd hm (by simp)⟩
            | none =>
                simp only [] at h
                rcases hc2 : dbCall
                    (DbOp.insertUser input.username input.email input.displayName input.bio)
                    (qInsertUser input now) sc with ⟨rc2, sc2⟩
                rw [hc2] at h
                cases rc2 with
                | error ec2 =>
                    simp only [Prod.mk.injEq, Except.error.injEq] at h
                    obtain ⟨hec2, _⟩ := h
                    subst hec2
                    obtain ⟨m, hm, hmem⟩ := dbCall_error hc2
                    rw [hfail] at hmem
                    exact ⟨Or.inr (Or.inr ⟨m, hm⟩),
                      dbError_second hm (scriptMsgs_tail_subset hmem)⟩
                | ok row2 => simp [Eff.pureE] at h

theorem userUpdateDb_error {id : String} {input : UpdateUserInput} {now : Nat} {s : Backend}
    {e : AppError} {s2 : Backend}
    (h : userUpdateDb id input now s = (Except.error e, s2)) :
    (isUserNotFound e ∨ isValidation e ∨ isDbError e) ∧
      ∀ m, e = AppError.databaseError m → m ∈ scriptMsgs s.failures := by
  unfold userUpdateDb Eff.bindE at h
  cases hp : jsParseInt id with
  | none =>
      rw [hp] at h
      simp only [Prod.mk.injEq, Except.error.injEq] at h
      obtain ⟨he, _⟩ := h
      subst he
      exact ⟨Or.inl ⟨id, rfl⟩, fun m hm => absurd hm (by simp)⟩
  | some numId =>
      rw [hp] at h
      simp only [] at h
      by_cases h1 : Option.any isBlank input.email = true
      · rw [if_pos h1] at h
        simp only [Eff.failE, Prod.mk.injEq, Except.error.injEq] at h
        obtain ⟨he, _⟩ := h
        subst he
        exact ⟨Or.inr (Or.inl ⟨_, rfl⟩), fun m hm => absurd hm (by simp)⟩
      · rw [if_neg h1] at h
        by_cases h2 : Option.any isBlank input.displayName = true
        · rw [if_pos h2] at h
          simp only [Eff.failE, Prod.mk.injEq, Except.error.injEq] at h
          obtain ⟨he, _⟩ := h
          subst he
          exact ⟨Or.inr (Or.inl ⟨_, rfl⟩), fun m hm => absurd hm (by simp)⟩
        · rw [if_neg h2] at h
          rcases hg : userGetByIdDb id s with ⟨rg, sg⟩
          rw [hg] at h
          cases rg with
          | error eg =>
              simp only [Prod.mk.injEq, Except.error.injEq] at h
              obtain ⟨heg, _⟩ := h
              subst heg
              rcases userGetByIdDb_error hg with ⟨i, hi⟩ | ⟨m, hm, hmem⟩
              · refine ⟨Or.inl ⟨i, hi⟩, ?_⟩
                intro m2 hm2
                rw [hi] at hm2
                exact absurd hm2 (by simp)
              · exact ⟨Or.inr (Or.inr ⟨m, hm⟩), dbError_second hm hmem⟩
          | ok u =>
              obtain ⟨n2, r, hpn2, hfind, hdbx, hfail⟩ := userGetByIdDb_ok hg
              have hnn : numId = n2 := by
                rw [hp] at hpn2
                exact Option.some.inj hpn2
              subst hnn
              simp only [] at h
              rcases hc : dbCall
                  (DbOp.updateUser numId input.email input.displayName input.bio)
                  (qUpdateUser numId input now) sg with ⟨rc, sc⟩
              rw [hc] at h
              cases rc with
              | error ec =>
                  simp only [Prod.mk.injEq, Except.error.injEq] at h
                  obtain ⟨hec, _⟩ := h
                  subst hec
                  obtain ⟨m, hm, hmem⟩ := dbCall_error hc
                  rw [hfail] at hmem
                  exact ⟨Or.inr (Or.inr ⟨m, hm⟩),
                    dbError_second hm (scriptMsgs_tail_subset hmem)⟩
              | ok rows =>
                  obtain ⟨hdb2, hrows, _, _⟩ := dbCall_ok hc
                  have hne : rows ≠ [] := by
                    rw [hrows]
                    rw [← hdbx] at hfind
                    exact qUpdateUser_ne_nil hfind
                  simp only [] at h
                  cases hh : rows.head? with
                  | some r2 => rw [hh] at h; simp [Eff.pureE] at h
                  | none => exact absurd (List.head?_eq_none_iff.mp hh) hne

theorem userDeleteDb_error {id : String} {s : Backend} {e : AppError} {s2 : Backend}
    (h : userDeleteDb id s = (Except.error e, s2)) :
    (isUserNotFound e ∨ isDbError e) ∧
      ∀ m, e = AppError.databaseError m → m ∈ scriptMsgs s.failures := by
  unfold userDeleteDb Eff.bindE at h
  cases hp : jsParseInt id with
  | none =>
      rw [hp] at h
      simp only [Prod.mk.injEq, Except.error.injEq] at h
      obtain ⟨he, _⟩ := h
      subst he
      exact ⟨Or.inl ⟨id, rfl⟩, fun m hm => absurd hm (by simp)⟩
  | some n =>
      rw [hp] at h
      simp only [] at h
      rcases hg : userGetByIdDb id s with ⟨rg, sg⟩
      rw [hg] at h
      cases rg with
      | error eg =>
          simp only [Prod.mk.injEq, Except.error.injEq] at h
          obtain ⟨heg, _⟩ := h
          subst heg
          rcases userGetByIdDb_error hg with ⟨i, hi⟩ | ⟨m, hm, hmem⟩
          · refine ⟨Or.inl ⟨i, hi⟩, ?_⟩
            intro m2 hm2
            rw [hi] at hm2
            exact absurd hm2 (by simp)
          · exact ⟨Or.inr ⟨m, hm⟩, dbError_second hm hmem⟩
      | ok u =>
          obtain ⟨n2, r, hpn2, hfind, hdbx, hfail⟩ := userGetByIdDb_ok hg
          simp only [] at h
          obtain ⟨m, hm, hmem⟩ := dbCall_error h
          rw [hfail] at hmem
          exact ⟨Or.inr ⟨m, hm⟩, dbError_second hm (scriptMsgs_tail_subset hmem)⟩

theorem userGetById_error_shape {id : String} {s : UserStore} {e : AppError} {s2 : UserStore}
    (h : userGetById id s = (Except.error e, s2)) : isUserNotFound e := by
  unfold userGetById at h
  cases hl : lookupEntry id s.users <;> rw [hl] at h
  · simp only [Prod.mk.injEq, Except.error.injEq] at h
    exact ⟨id, h.1.symm⟩
  · simp at h

theorem userGetByUsername_error_shape {username : String} {s : UserStore} {e : AppError}
    {s2 : UserStore} (h : userGetByUsername username s = (Except.error e, s2)) :
    isUserNotFound e := by
  unfold userGetByUsername at h
  cases hl : (s.users.map Prod.snd).find? (fun u => u.username == username) <;> rw [hl] at h
  · simp only [Prod.mk.injEq, Except.error.injEq] at h
    exact ⟨_, h.1.symm⟩
  · simp at h

theorem userCreate_error_shape {input : CreateUserInput} {now : Nat} {s : UserStore}
    {e : AppError} {s2 : UserStore}
    (h : userCreate input now s = (Except.error e, s2)) :
    isValidation e ∨ isAlreadyExists e := by
  unfold userCreate at h
  by_cases h1 : isBlank input.username = true
  · rw [if_pos h1] at h
    simp only [Prod.mk.injEq, Except.error.injEq] at h
    exact Or.inl ⟨_, h.1.symm⟩
  · rw [if_neg h1] at h
    by_cases h2 : isBlank input.email = true
    · rw [if_pos h2] at h
      simp only [Prod.mk.injEq, Except.error.injEq] at h
      exact Or.inl ⟨_, h.1.symm⟩
    · rw [if_neg h2] at h
      by_cases h3 : isBlank input.displayName = true
      · rw [if_pos h3] at h
        simp only [Prod.mk.injEq, Except.error.injEq] at h
        exact Or.inl ⟨_, h.1.symm⟩
      · rw [if_neg h3] at h
        cases hf : (s.users.map Prod.snd).find? (fun u => u.username == input.username) <;>
          rw [hf] at h
        · simp at h
        · simp only [Prod.mk.injEq, Except.error.injEq] at h
          exact Or.inr ⟨_, h.1.symm⟩

theorem userUpdate_error_shape {id : String} {input : UpdateUserInput} {now : Nat}
    {s : UserStore} {e : AppError} {s2 : UserStore}
    (h : userUpdate id input now s = (Except.error e, s2)) :
    isUserNotFound e ∨ isValidation e := by
  unfold userUpdate Eff.bindE at h
  rcases hg : userGetById id s with ⟨rg, sg⟩
  rw [hg] at h
  cases rg with
  | error eg =>
      simp only [Prod.mk.injEq, Except.error.injEq] at h
      obtain ⟨heg, _⟩ := h
      subst heg
      exact Or.inl (userGetById_error_shape hg)
  | ok u =>
      simp only [] at h
      by_cases h1 : Option.any isBlank input.email = true
      · rw [if_pos h1] at h
        simp only [Prod.mk.injEq, Except.error.injEq] at h
        exact Or.inr ⟨_, h.1.symm⟩
      · rw [if_neg h1] at h
        by_cases h2 : Option.any isBlank input.displayName = true
        · rw [if_pos h2] at h
          simp only [Prod.mk.injEq, Except.error.injEq] at h
          exact Or.inr ⟨_, h.1.symm⟩
        · rw [if_neg h2] at h
          simp at h

theorem userDelete_error_shape {id : String} {s : UserStore} {e : AppError} {s2 : UserStore}
    (h : userDelete id s = (Except.error e, s2)) : isUserNotFound e := by
  unfold userDelete Eff.bindE at h
  rcases hg : userGetById id s with ⟨rg, sg⟩
  rw [hg] at h
  cases rg with
  | error eg =>
      simp only [Prod.mk.injEq, Except.error.injEq] at h
      obtain ⟨heg, _⟩ := h
      subst heg
      exact userGetById_error_shape hg
  | ok u => simp at h

theorem todoGetById_error_shape {id : String} {s : TodoStore} {e : AppError} {s2 : TodoStore}
    (h : todoGetById id s = (Except.error e, s2)) : isTodoNotFound e := by
  unfold todoGetById at h
  cases hl : lookupEntry id s.todos <;> rw [hl] at h
  · simp only [Prod.mk.injEq, Except.error.injEq] at h
    exact ⟨id, h.1.symm⟩
  · simp at h

theorem todoCreate_error_shape {input : CreateTodoInput} {now : Nat} {s : TodoStore}
    {e : AppError} {s2 : TodoStore}
    (h : todoCreate input now s = (Except.error e, s2)) : isValidation e := by
  unfold todoCreate at h
  by_cases h1 : isBlank input.title = true
  · rw [if_pos h1] at h
    simp only [Prod.mk.injEq, Except.error.injEq] at h
    exact ⟨_, h.1.symm⟩
  · rw [if_neg h1] at h
    simp at h

theorem todoUpdate_error_shape {id : String} {input : UpdateTodoInput} {now : Nat}
    {s : TodoStore} {e : AppError} {s2 : TodoStore}
    (h : todoUpdate id input now s = (Except.error e, s2)) :
    isTodoNotFound e ∨ isValidation e := by
  unfold todoUpdate Eff.bindE at h
  rcases hg : todoGetById id s with ⟨rg, sg⟩
  rw [hg] at h
  cases rg with
  | error eg =>
      simp only [Prod.mk.injEq, Except.error.injEq] at h
      obtain ⟨heg, _⟩ := h
      subst heg
      exact Or.inl (todoGetById_error_shape hg)
  | ok t =>
      simp only [] at h
      by_cases h1 : Option.any isBlank input.title = true
      · rw [if_pos h1] at h
        simp only [Prod.mk.injEq, Except.error.injEq] at h
        exact Or.inr ⟨_, h.1.symm⟩
      · rw [if_neg h1] at h
        simp at h

theorem todoDelete_error_shape {id : String} {s : TodoStore} {e : AppError} {s2 : TodoStore}
    (h : todoDelete id s = (Except.error e, s2)) : isTodoNotFound e := by
  unfold todoDelete Eff.bindE at h
  rcases hg : todoGetById id s with ⟨rg, sg⟩
  rw [hg] at h
  cases rg with
  | error eg =>
      simp only [Prod.mk.injEq, Except.error.injEq] at h
      obtain ⟨heg, _⟩ := h
      subst heg
      exact todoGetById_error_shape hg
  | ok t => simp at h

/-- C6: every Failure any service operation produces carries an error
kind from that operation's declared signature — the interfaces of
PostService, the database-backed UserService, the in-memory UserService
and TodoService — in particular no defect escapes; and for the
database-backed services every failure arising from the backing store
surfaces wrapped as a DatabaseError whose message is one of the
backend's stringified rejections, never a raw backend exception. -/
theorem c6_declared_errors :
    (∀ (op : PostOp) (s : Backend) (e : AppError),
        (runPostOp op s).1 = Except.error e →
        declaredPostError op e ∧
          ∀ m, e = AppError.databaseError m → m ∈ scriptMsgs s.failures)
    ∧ (∀ (op : UserDbOp) (s : Backend) (e : AppError),
        (runUserDbOp op s).1 = Except.error e →
        declaredUserDbError op e ∧
          ∀ m, e = AppError.databaseError m → m ∈ scriptMsgs s.failures)
    ∧ (∀ (op : UserOp) (s : UserStore) (e : AppError),
        (runUserOp op s).1 = Except.error e → declaredUserMemError op e)
    ∧ (∀ (op : TodoOp) (s : TodoStore) (e : AppError),
        (runTodoOp op s).1 = Except.error e → declaredTodoError op e) := by
  refine ⟨?_, ?_, ?_, ?_⟩
  · intro op s e h
    cases op with
    | getAll =>
        obtain ⟨s3, hx⟩ := mapE_fst_error PostVal.many postGetAll s e h
        exact postGetAll_error hx
    | getById id =>
        obtain ⟨s3, hx⟩ := mapE_fst_error PostVal.one (postGetById id) s e h
        rcases postGetById_error hx with ⟨i, hi⟩ | ⟨m, hm, hmem⟩
        · refine ⟨Or.inl ⟨i, hi⟩, ?_⟩
          intro m2 hm2
          rw [hi] at hm2
          exact absurd hm2 (by simp)
        · exact ⟨Or.inr ⟨m, hm⟩, dbError_second hm hmem⟩
    | getByUserId u =>
        obtain ⟨s3, hx⟩ := mapE_fst_error PostVal.many (postGetByUserId u) s e h
        exact postGetByUserId_error hx
    | create input now =>
        obtain ⟨s3, hx⟩ := mapE_fst_error PostVal.one (postCreate input now) s e h
        exact postCreate_error hx
    | update id input now =>
        obtain ⟨s3, hx⟩ := mapE_fst_error PostVal.one (postUpdate id input now) s e h
        exact postUpdate_error hx
    | delete id =>
        obtain ⟨s3, hx⟩ := mapE_fst_error (fun _ => PostVal.unit) (postDelete id) s e h
        exact postDelete_error hx
  · intro op s e h
    cases op with
    | getAll =>
        obtain ⟨s3, hx⟩ := mapE_fst_error UserVal.many userGetAllDb s e h
        exact userGetAllDb_error hx
    | getById id =>
        obtain ⟨s3, hx⟩ := mapE_fst_error UserVal.one (userGetByIdDb id) s e h
        rcases userGetByIdDb_error hx with ⟨i, hi⟩ | ⟨m, hm, hmem⟩
        · refine ⟨Or.inl ⟨i, hi⟩, ?_⟩
          intro m2 hm2
          rw [hi] at hm2
          exact absurd hm2 (by simp)
        · exact ⟨Or.inr ⟨m, hm⟩, dbError_second hm hmem⟩
    | getByUsername u =>
        obtain ⟨s3, hx⟩ := mapE_fst_error UserVal.one (userGetByUsernameDb u) s e h
        exact userGetByUsernameDb_error hx
    | create input now =>
        obtain ⟨s3, hx⟩ := mapE_fst_error UserVal.one (userCreateDb input now) s e h
        exact userCreateDb_error hx
    | update id input now =>
        obtain ⟨s3, hx⟩ := mapE_fst_error UserVal.one (userUpdateDb id input now) s e h
        exact userUpdateDb_error hx
    | delete id =>
        obtain ⟨s3, hx⟩ := mapE_fst_error (fun _ => UserVal.unit) (userDeleteDb id) s e h
        exact userDeleteDb_error hx
  · intro op s e h
    cases op with
    | getAll => exact Except.noConfusion h
    | getById id =>
        obtain ⟨s3, hx⟩ := mapE_fst_error UserVal.one (userGetById id) s e h
        exact userGetById_error_shape hx
    | getByUsername u =>
        obtain ⟨s3, hx⟩ := mapE_fst_error UserVal.one (userGetByUsername u) s e h
        exact userGetByUsername_error_shape hx
    | create input now =>
        obtain ⟨s3, hx⟩ := mapE_fst_error UserVal.one (userCreate input now) s e h
        exact userCreate_error_shape hx
    | update id input now =>
        obtain ⟨s3, hx⟩ := mapE_fst_error UserVal.one (userUpdate id input now) s e h
        exact userUpdate_error_shape hx
    | delete id =>
        obtain ⟨s3, hx⟩ := mapE_fst_error (fun _ => UserVal.unit) (userDelete id) s e h
        exact userDelete_error_shape hx
  · intro op s e h
    cases op with
    | getAll => exact Except.noConfusion h
    | getById id =>
        obtain ⟨s3, hx⟩ := mapE_fst_error TodoVal.one (todoGetById id) s e h
        exact todoGetById_error_shape hx
    | create input now =>
        obtain ⟨s3, hx⟩ := mapE_fst_error TodoVal.one (todoCreate input now) s e h
        exact todoCreate_error_shape hx
    | update id input now =>
        obtain ⟨s3, hx⟩ := mapE_fst_error TodoVal.one (todoUpdate id input now) s e h
        exact todoUpdate_error_shape hx
    | delete id =>
        obtain ⟨s3, hx⟩ := mapE_fst_error (fun _ => TodoVal.unit) (todoDelete id) s e h
        exact todoDelete_error_shape hx

theorem c6_declared_errors_witness :
    declaredPostError (PostOp.update "abc" { content := none } 0)
        (AppError.postNotFound "abc") ∧
      (∀ m, AppError.postNotFound "abc" = AppError.databaseError m →
        m ∈ scriptMsgs emptyBackend.failures) :=
  c6_declared_errors.1 (PostOp.update "abc" { content := none } 0) emptyBackend
    (AppError.postNotFound "abc") (by decide)

end HonoEffectApi
